import Mathlib

/- Verification of the preprocessing/upload tool (app.py, test.py).

   This file shallowly embeds the parts of the program that the claims
   concern: the JSON work-item flattener (`_flatten_leaves`,
   `build_json_dataframe`), dataframe column union semantics, the Drive
   crawler (`list_drive_images_recursive`, `build_drive_dataframe`), the
   retrying HTTP transport (`make_session`'s urllib3 Retry configuration),
   the auth-header normalization (`_auth_headers`), the three-step
   publishing pipeline (`upload_csv_bytes`, `create_batch_rlhf`,
   `import_batch`, `upload_pipeline`), the `get_value` field selector, and
   the unattended batch orchestrator (`main` of test.py).

   Machine strings are modeled as Lean `String` restricted to the ASCII
   behavior the program exercises; Python dicts are modeled as ordered
   association lists with Python's insertion/overwrite semantics; fallible
   Python code (raising exceptions) is modeled with `Except String`. -/

/-- JSON values as produced by Python's `json.load`. -/
inductive Json where
  | null : Json
  | bool : Bool → Json
  | num : Int → Json
  | str : String → Json
  | arr : List Json → Json
  | obj : List (String × Json) → Json

/-- `isinstance(v, dict)` -/
def Json.isObj : Json → Bool
  | .obj _ => true
  | _ => false

/-- Python dict lookup `d.get(k)` / `k in d`: first match (dicts coming from
    `json.load` have unique keys, so first match agrees with Python). -/
def lookupA {α : Type} : List (String × α) → String → Option α
  | [], _ => none
  | (k, v) :: rest, key => if k = key then some v else lookupA rest key

/-- Python dict assignment `d[k] = v`: replaces the value in place when the
    key is present, otherwise appends the new key at the end. -/
def insertA {α : Type} : List (String × α) → String → α → List (String × α)
  | [], key, v => [(key, v)]
  | (k, w) :: rest, key, v =>
      if k = key then (k, v) :: rest else (k, w) :: insertA rest key v

/-- Python `d.update(d2)`: assign each entry of `d2` into `d` in order. -/
def updateA {α : Type} (m m2 : List (String × α)) : List (String × α) :=
  m2.foldl (fun acc kv => insertA acc kv.1 kv.2) m

/-- Keys of an association list. -/
def keysA {α : Type} (m : List (String × α)) : List String :=
  m.map Prod.fst

-- ──────────────────────────────────────────────────────────────────────
-- ASCII-level string helpers (kernel-computable stand-ins for the Python
-- string operations the program uses)
-- ──────────────────────────────────────────────────────────────────────

/-- `s.startswith(p)` -/
def strStartsWith (s p : String) : Bool :=
  p.toList.isPrefixOf s.toList

/-- `s.endswith(p)` -/
def strEndsWith (s p : String) : Bool :=
  p.toList.isSuffixOf s.toList

/-- ASCII lowering of one character (`str.lower` on the ASCII range the
    program exercises). -/
def pyLowerChar (c : Char) : Char :=
  if 'A' ≤ c ∧ c ≤ 'Z' then Char.ofNat (c.toNat + 32) else c

/-- `s.lower()` -/
def pyLower (s : String) : String :=
  ⟨s.toList.map pyLowerChar⟩

/-- The default whitespace set of `str.strip()` (ASCII part). -/
def pyIsSpace (c : Char) : Bool :=
  c = ' ' || c = '\t' || c = '\n' || c = '\r' || c = '\x0b' || c = '\x0c'

/-- `str.strip()` on a character list: drop whitespace at both ends. -/
def stripL (l : List Char) : List Char :=
  ((l.dropWhile pyIsSpace).reverse.dropWhile pyIsSpace).reverse

/-- `s.strip()` -/
def pyStrip (s : String) : String :=
  ⟨stripL s.toList⟩

-- ──────────────────────────────────────────────────────────────────────
-- JSON HELPERS (app.py lines 345-388)
-- ──────────────────────────────────────────────────────────────────────

/-- The loop body of `_flatten_leaves` (app.py 345-353): `out` is the dict
    built so far, `pfx` the `parent_prefix`.  A dict value is flattened
    recursively into a fresh dict and merged with `out.update(...)`; any
    other value is assigned at its joined key path. -/
def flat_go : List (String × Json) → String → List (String × Json) → List (String × Json)
  | [], _, out => out
  | (k, v) :: rest, pfx, out =>
      let key_path := if pfx = "" then k else pfx ++ "-" ++ k
      match v with
      | Json.obj fields => flat_go rest pfx (updateA out (flat_go fields key_path []))
      | v => flat_go rest pfx (insertA out key_path v)
termination_by d _ _ => sizeOf d
decreasing_by all_goals (simp_wf; try omega)

/-- `_flatten_leaves(d, parent_prefix)` (app.py 345-353). -/
def flatten_leaves (d : List (String × Json)) (pfx : String) : List (String × Json) :=
  flat_go d pfx []

/-- `re.fullmatch(r"Image_\\d+", ik)` (app.py 371).  The raw string
    `r"Image_\\d+"` denotes the regex `Image_` followed by `\\` (a literal
    backslash) and `d+` (one or more letter `d`), so it matches
    `Image_\d`, `Image_\dd`, ... and never `Image_1`. -/
def imageKeyMatch (s : String) : Bool :=
  let cs := s.toList
  decide (cs.take 7 = ['I', 'm', 'a', 'g', 'e', '_', '\\']) &&
    (let rest := cs.drop 7
     !rest.isEmpty && rest.all (fun c => c = 'd'))

/-- The inner `for ik, iv in v.items()` loop over the children of
    `inputData` (app.py 369-377).  Returns the updated row together with
    the list `images` of values whose key matched the pattern. -/
def inputDataGo : List (String × Json) → List (String × Json) → List Json →
    List (String × Json) × List Json
  | [], row, images => (row, images)
  | (ik, iv) :: rest, row, images =>
      if imageKeyMatch ik then
        inputDataGo rest row (images ++ [iv])
      else
        match iv with
        | Json.obj fs =>
            inputDataGo rest (updateA row (flatten_leaves fs "workitems-inputData")) images
        | _ => inputDataGo rest (insertA row ("workitems-inputData-" ++ ik) iv) images

/-- All-strings extraction for `", ".join(images)`: Python's `str.join`
    raises `TypeError` unless every element is a string. -/
def strOnly : List Json → Option (List String)
  | [] => some []
  | Json.str s :: rest => (strOnly rest).map (fun ss => s :: ss)
  | _ => none

/-- The `for k, v in wi.items()` loop of `build_json_dataframe`
    (app.py 365-383), acting on the row built so far. -/
def wiGo : List (String × Json) → List (String × Json) →
    Except String (List (String × Json))
  | [], row => Except.ok row
  | (k, v) :: rest, row =>
      if k = "workItemId" then wiGo rest row
      else
        match v with
        | Json.obj fs =>
            if k = "inputData" then
              let ri := inputDataGo fs row []
              if ri.2.isEmpty then wiGo rest ri.1
              else
                match strOnly ri.2 with
                | some ss =>
                    wiGo rest (insertA ri.1 "workitems-inputData-Image"
                      (Json.str (String.intercalate ", " ss)))
                | none => Except.error "TypeError: sequence item: expected str instance"
            else wiGo rest (updateA row (flatten_leaves fs ("workitems-" ++ k)))
        | _ => wiGo rest (insertA row ("workitems-" ++ k) v)

/-- The per-work-item row construction of `build_json_dataframe`
    (app.py 362-383): seed the row with `workitems-workItemId` when
    present, then run the item loop. -/
def wiRow (wi : List (String × Json)) : Except String (List (String × Json)) :=
  let row0 : List (String × Json) :=
    match lookupA wi "workItemId" with
    | some v => [("workitems-workItemId", v)]
    | none => []
  wiGo wi row0

/-- The `for wi in data.get("workitems", [])` loop (app.py 361-385): each
    work item must be a mapping (anything else raises in Python); the
    final row is `{**file_meta_flat, **row}` (item keys win). -/
def rowsGo (metaFlat : List (String × Json)) : List Json →
    Except String (List (List (String × Json)))
  | [] => Except.ok []
  | wi :: rest =>
      match wi with
      | Json.obj fields => do
          let r ← wiRow fields
          let rs ← rowsGo metaFlat rest
          Except.ok (updateA metaFlat r :: rs)
      | _ => Except.error "AttributeError: work item is not a mapping"

/-- `build_json_dataframe` (app.py 355-388) up to the list of row
    mappings handed to `pd.DataFrame`.  The argument is the value returned
    by `json.load`; `fileMetadata` is flattened one level only. -/
def buildJsonRows (data : Json) : Except String (List (List (String × Json))) :=
  match data with
  | Json.obj top =>
      match lookupA top "fileMetadata" with
      | some (Json.obj ms) => rowsGo (ms.map (fun kv => ("fileMetadata-" ++ kv.1, kv.2))) (
          match lookupA top "workitems" with
          | some (Json.arr ws) => ws
          | _ => [])
      | none => rowsGo [] (
          match lookupA top "workitems" with
          | some (Json.arr ws) => ws
          | _ => [])
      | some _ => Except.error "AttributeError: fileMetadata is not a mapping"
  | _ => Except.error "AttributeError: data is not a mapping"

-- ──────────────────────────────────────────────────────────────────────
-- Python str()/repr() for the values the rows can hold, dataframe cells
-- ──────────────────────────────────────────────────────────────────────

/-- Python `repr` of a JSON-shaped value (strings quoted, `None`/`True`/
    `False` spelled the Python way). -/
def pyReprJson : Json → String
  | Json.null => "None"
  | Json.bool true => "True"
  | Json.bool false => "False"
  | Json.num n => toString n
  | Json.str s => "\x27" ++ s ++ "\x27"
  | Json.arr xs =>
      "[" ++ String.intercalate ", " (xs.attach.map (fun x => pyReprJson x.1)) ++ "]"
  | Json.obj fs =>
      "\x7b" ++ String.intercalate ", "
        (fs.attach.map (fun kv => "\x27" ++ kv.1.1 ++ "\x27: " ++ pyReprJson kv.1.2)) ++ "\x7d"
termination_by v => sizeOf v
decreasing_by
  · obtain ⟨y, hy⟩ := x
    have h := List.sizeOf_lt_of_mem hy
    simp_wf
    omega
  · obtain ⟨⟨a, b⟩, hk⟩ := kv
    have h := List.sizeOf_lt_of_mem hk
    simp_wf
    simp only [Prod.mk.sizeOf_spec] at h
    omega

/-- Python `str` of a JSON-shaped value (`str` of a string is itself,
    everything else falls back to `repr`). -/
def pyStrJson (v : Json) : String :=
  match v with
  | Json.str s => s
  | v => pyReprJson v

/-- One cell of a pandas dataframe built from a list of dicts: either a
    value from the row's dict, or the NaN missing-value marker pandas
    fills in when the row lacks the column's key. -/
inductive Cell where
  | val : Json → Cell
  | nan : Cell

/-- The columns of `pd.DataFrame(rows)`: the union of the rows' keys, in
    order of first appearance. -/
def dfColumns (rows : List (List (String × Json))) : List String :=
  rows.foldl (fun cols r => cols ++ (keysA r).filter (fun k => !cols.contains k)) []

/-- The cell of `pd.DataFrame(rows)` at a given row and column: the row's
    value when the key is present, NaN otherwise. -/
def dfCell (r : List (String × Json)) (c : String) : Cell :=
  match lookupA r c with
  | some v => Cell.val v
  | none => Cell.nan

/-- Python `str()` of a dataframe cell (`str(nan)` is `"nan"`). -/
def pyStrCell : Cell → String
  | Cell.val v => pyStrJson v
  | Cell.nan => "nan"

/-- `get_value(row, field)` (app.py 333-335): `"."` for the literal `"."`
    placeholder, `str(row.get(field, "."))` otherwise. -/
def get_value (row : List (String × Cell)) (field : String) : String :=
  if field = "." then "."
  else
    match lookupA row field with
    | some c => pyStrCell c
    | none => "."

-- ──────────────────────────────────────────────────────────────────────
-- TRANSPORT: make_session's urllib3 Retry configuration (app.py 51-68)
-- ──────────────────────────────────────────────────────────────────────

def DEFAULT_TOTAL_RETRIES : Nat := 4

def STATUS_FORCELIST : List Nat := [429, 500, 502, 503, 504]

def ALLOWED_METHODS : List String :=
  ["HEAD", "GET", "PUT", "POST", "DELETE", "OPTIONS", "TRACE", "PATCH"]

def BACKOFF_FACTOR : Rat := 3 / 2

/-- urllib3 `Retry.RETRY_AFTER_STATUS_CODES`. -/
def RETRY_AFTER_STATUS_CODES : List Nat := [413, 429, 503]

/-- `Retry.respect_retry_after_header` is left at its default `True` by
    `make_session`. -/
def respect_retry_after_header : Bool := true

/-- A transport-level response as the retry machinery sees it: the status
    code, and the parsed value of its `Retry-After` header when the
    response carries one (urllib3 parses it to seconds, clamped at 0). -/
structure TResponse where
  status : Nat
  retryAfter : Option Nat
deriving DecidableEq

/-- What one attempt of a request can produce at the transport level. -/
inductive AttemptOutcome where
  | response : TResponse → AttemptOutcome
  | connectError : AttemptOutcome
  | readError : AttemptOutcome
deriving DecidableEq

/-- urllib3 `Retry.is_retry(method, status_code, has_retry_after)` with
    `total` the remaining retry budget: a non-retryable method refuses; a
    forcelisted status retries; otherwise retry iff `total` is nonzero,
    `respect_retry_after_header` holds, the response carries a
    `Retry-After` header, and the status is in
    `RETRY_AFTER_STATUS_CODES` (413/429/503). -/
def is_retry (method : String) (status_code : Nat) (total : Nat)
    (has_retry_after : Bool) : Bool :=
  if !(ALLOWED_METHODS.contains method) then false
  else if STATUS_FORCELIST.contains status_code then true
  else
    decide (total ≠ 0) && respect_retry_after_header && has_retry_after
      && RETRY_AFTER_STATUS_CODES.contains status_code

/-- The adapter's retry decision for one attempt's outcome, with `total`
    the remaining retry budget: a connect error is always retried; a read
    error is retried when the method is in `allowed_methods`; a response
    goes through `Retry.is_retry`, where `has_retry_after` is the presence
    of the response's `Retry-After` header. -/
def shouldRetry (method : String) (total : Nat) (a : AttemptOutcome) : Bool :=
  match a with
  | AttemptOutcome.connectError => true
  | AttemptOutcome.readError => ALLOWED_METHODS.contains method
  | AttemptOutcome.response r =>
      is_retry method r.status total r.retryAfter.isSome

/-- urllib3 `Retry.get_backoff_time` with `backoff_factor=1.5`: zero before
    the second retry, then `backoff_factor * 2^(consecutive - 1)`, capped
    at `BACKOFF_MAX = 120` seconds. -/
def get_backoff_time (consecutive : Nat) : Rat :=
  if consecutive ≤ 1 then 0 else min 120 (BACKOFF_FACTOR * 2 ^ (consecutive - 1))

/-- urllib3 `Retry.sleep` before re-attempting: a response carrying a
    positive parsed `Retry-After` value sleeps that value
    (`sleep_for_retry`); otherwise — header absent or parsed to 0, or a
    connect/read error, for which `sleep()` is called without a response —
    the exponential backoff. -/
def sleepFor (a : AttemptOutcome) (consecutive : Nat) : Rat :=
  match a with
  | AttemptOutcome.response r =>
      match r.retryAfter with
      | some t => if 0 < t then (t : Rat) else get_backoff_time consecutive
      | none => get_backoff_time consecutive
  | _ => get_backoff_time consecutive

/-- The retry loop of the mounted adapter: attempt `i` with `fuel` retries
    remaining; retry while `shouldRetry` holds and budget remains, sleeping
    `sleepFor` of the triggering outcome before each retry, else surface
    the outcome. With the budget exhausted a response is surfaced either
    way: a forcelisted status exhausts `Retry.increment`, which
    `raise_on_status=False` turns into returning the response without
    sleeping, and the Retry-After branch of `is_retry` is itself gated on
    the remaining `total` being nonzero. Returns (number of attempts,
    sleeps, final outcome). -/
def retryGo (method : String) (server : Nat → AttemptOutcome) :
    Nat → Nat → Nat × List Rat × AttemptOutcome
  | 0, i => (i + 1, [], server i)
  | fuel + 1, i =>
      let a := server i
      if shouldRetry method (fuel + 1) a then
        let r := retryGo method server fuel (i + 1)
        (r.1, sleepFor a (i + 1) :: r.2.1, r.2.2)
      else (i + 1, [], a)

/-- One request through the session built by `make_session`:
    `total=4` retries. -/
def sessionRun (method : String) (server : Nat → AttemptOutcome) :
    Nat × List Rat × AttemptOutcome :=
  retryGo method server DEFAULT_TOTAL_RETRIES 0

-- ──────────────────────────────────────────────────────────────────────
-- AUTH HEADERS (app.py 73-82)
-- ──────────────────────────────────────────────────────────────────────

/-- The token normalization inside `_auth_headers` (app.py 73-77):
    strip, then prepend `"Bearer "` unless the token already starts with
    `"bearer "` case-insensitively. -/
def normalizeToken (token : String) : String :=
  let t := pyStrip token
  if t ≠ "" ∧ ¬ strStartsWith (pyLower t) "bearer " then "Bearer " ++ t else t

/-- `_auth_headers(token)` (app.py 73-77). -/
def auth_headers (token : String) : List (String × String) :=
  let t := normalizeToken token
  if t ≠ "" then [("Authorization", t)] else []

/-- `_json_headers(token)` (app.py 79-82). -/
def json_headers (token : String) : List (String × String) :=
  insertA (auth_headers token) "Content-Type" "application/json"

-- ──────────────────────────────────────────────────────────────────────
-- PUBLISHING PIPELINE (app.py 97-194)
-- ──────────────────────────────────────────────────────────────────────

/-- The response the session surfaces to a pipeline step after the
    transport-level retries: its status, the result of `resp.json()`
    (`none` when the body is not valid JSON), the body text, and request
    metadata used for diagnostics. -/
structure Response where
  status : Nat
  jsonBody : Option Json
  text : String
  url : String
  method : String
  headers : List (String × String)

/-- `requests.Response.ok`: true exactly when the status is below 400. -/
def Response.ok (r : Response) : Bool := r.status < 400

/-- Python `repr` of a string-to-string dict (used for header dicts). -/
def pyReprStrDict (h : List (String × String)) : String :=
  "\x7b" ++ String.intercalate ", "
    (h.map (fun kv => "\x27" ++ kv.1 ++ "\x27: \x27" ++ kv.2 ++ "\x27")) ++ "\x7d"

/-- `_format_http_error` (app.py 84-92). -/
def format_http_error (resp : Response) : String :=
  "HTTP " ++ toString resp.status ++ "\n" ++
  "URL: " ++ resp.method ++ " " ++ resp.url ++ "\n" ++
  "Headers: " ++ pyReprStrDict resp.headers ++ "\n" ++
  "Body: " ++ (⟨resp.text.toList.take 2000⟩ : String)

/-- `link.rsplit("/", 1)[-1]`. -/
def lastSegmentAfterSlash (s : String) : String :=
  ⟨(s.toList.reverse.takeWhile (fun c => c ≠ '/')).reverse⟩

def hexDigitVal (c : Char) : Option Nat :=
  if '0' ≤ c ∧ c ≤ '9' then some (c.toNat - '0'.toNat)
  else if 'a' ≤ c ∧ c ≤ 'f' then some (c.toNat - 'a'.toNat + 10)
  else if 'A' ≤ c ∧ c ≤ 'F' then some (c.toNat - 'A'.toNat + 10)
  else none

/-- `urllib.parse.unquote` percent-decoding (byte-per-character on the
    ASCII range the program exercises). -/
def percentDecode : List Char → List Char
  | '%' :: a :: b :: rest =>
      match hexDigitVal a, hexDigitVal b with
      | some x, some y => Char.ofNat (16 * x + y) :: percentDecode rest
      | _, _ => '%' :: percentDecode (a :: b :: rest)
  | c :: rest => c :: percentDecode rest
  | [] => []

def unquote (s : String) : String := ⟨percentDecode s.toList⟩

/-- Python truthiness of `payload.get("fileLink")`. -/
def pyTruthy : Option Json → Bool
  | none => false
  | some Json.null => false
  | some (Json.bool b) => b
  | some (Json.num n) => n != 0
  | some (Json.str s) => s != ""
  | some (Json.arr xs) => !xs.isEmpty
  | some (Json.obj fs) => !fs.isEmpty

/-- `upload_csv_bytes` (app.py 97-124) as a function of the response the
    upload endpoint produced: returns `(file_link, object_name)` or the
    raised diagnostic. -/
def upload_csv_bytes (resp : Response) : Except String (String × String) :=
  if ¬ resp.ok then Except.error ("Upload step failed:\n" ++ format_http_error resp)
  else
    match resp.jsonBody with
    | none => Except.error ("Upload step returned non-JSON:\n" ++ format_http_error resp)
    | some payload =>
        match payload with
        | Json.obj fields =>
            let link := lookupA fields "fileLink"
            if ¬ pyTruthy link then
              Except.error ("Upload step missing \x27fileLink\x27 in response:\n" ++
                pyReprJson payload)
            else
              match link with
              | some (Json.str l) => Except.ok (l, unquote (lastSegmentAfterSlash l))
              | _ => Except.error "AttributeError: fileLink value has no attribute rsplit"
        | _ => Except.error "AttributeError: payload has no attribute get"

/-- The JSON descriptor POSTed by `create_batch_rlhf` (app.py 132-149). -/
def createBatchPayload (batch_name object_name file_link : String)
    (project_id : Int) (project_name : String) : Json :=
  Json.obj [
    ("name", Json.str batch_name),
    ("folder", Json.str file_link),
    ("description", Json.str ""),
    ("status", Json.str "draft"),
    ("files", Json.arr []),
    ("isRLHFFolder", Json.bool true),
    ("project", Json.obj [
      ("id", Json.num project_id),
      ("name", Json.str project_name),
      ("status", Json.str "ongoing"),
      ("projectType", Json.str "rlhf"),
      ("readonly", Json.bool false)]),
    ("sourceFiles", Json.arr [Json.str object_name]),
    ("projectId", Json.num project_id),
    ("projectType", Json.str "rlhf")]

/-- `create_batch_rlhf` (app.py 126-157) as a function of the response:
    raises on a non-ok status; otherwise returns `resp.json()["id"]`
    unchecked, raising the invalid-JSON diagnostic when the body is not a
    JSON mapping carrying `"id"`. -/
def create_batch_rlhf (resp : Response) : Except String Json :=
  if ¬ resp.ok then
    Except.error ("Create-batch step failed:\n" ++ format_http_error resp)
  else
    match resp.jsonBody with
    | some (Json.obj fields) =>
        match lookupA fields "id" with
        | some v => Except.ok v
        | none => Except.error ("Create-batch returned invalid JSON:\n" ++ format_http_error resp)
    | _ => Except.error ("Create-batch returned invalid JSON:\n" ++ format_http_error resp)

/-- `import_batch` (app.py 159-169): raises on non-ok; an empty (stripped)
    body yields `{}`; otherwise the body must parse as JSON. -/
def import_batch (resp : Response) : Except String Json :=
  if ¬ resp.ok then
    Except.error ("Import step failed:\n" ++ format_http_error resp)
  else if pyStrip resp.text ≠ "" then
    match resp.jsonBody with
    | some j => Except.ok j
    | none => Except.error "JSONDecodeError: response body is not JSON"
  else Except.ok (Json.obj [])

/-- `filename.rsplit(".", 1)[0]` (app.py 183). -/
def rsplitDotFirst (s : String) : String :=
  if s.toList.contains '.' then
    ⟨((s.toList.reverse.dropWhile (fun c => c ≠ '.')).drop 1).reverse⟩
  else s

/-- The responses the three endpoints produce during one pipeline run
    (each is what the session surfaces after its own retries). -/
structure PipelineEnv where
  uploadResp : Response
  createResp : Response
  importResp : Response

/-- The observable outcome of `upload_pipeline`: the returned pair plus
    which of the later steps were reached. -/
structure PipelineRun where
  ok : Bool
  message : String
  createCalled : Bool
  importCalled : Bool

/-- `upload_pipeline` (app.py 171-194): upload, then create batch, then
    import; any raised step turns into `(False, "❌ ...")`. -/
def upload_pipeline (env : PipelineEnv) (_filename : String) : PipelineRun :=
  match upload_csv_bytes env.uploadResp with
  | Except.error e => ⟨false, "❌ " ++ e, false, false⟩
  | Except.ok _ =>
      match create_batch_rlhf env.createResp with
      | Except.error e => ⟨false, "❌ " ++ e, true, false⟩
      | Except.ok batchId =>
          match import_batch env.importResp with
          | Except.error e => ⟨false, "❌ " ++ e, true, true⟩
          | Except.ok _ =>
              ⟨true, "✅ Uploaded and imported. Batch ID: " ++ pyStrJson batchId,
                true, true⟩

-- ──────────────────────────────────────────────────────────────────────
-- GOOGLE DRIVE CRAWLER (app.py 269-316)
-- ──────────────────────────────────────────────────────────────────────

def FOLDER_MIME : String := "application/vnd.google-apps.folder"

/-- One node of the remote Drive tree: id, name, mimeType, and (for
    folders) the children the listing API would return. -/
inductive DriveEntry where
  | mk : String → String → String → List DriveEntry → DriveEntry

/-- The record appended for one image (app.py 296-300). -/
structure ImageRec where
  image_name : String
  image_link : String
  full_path : List String
deriving DecidableEq

def driveLink (fid : String) : String :=
  "https://drive.google.com/file/d/" ++ fid ++ "/view"

/-- `list_drive_images_recursive` (app.py 269-303) over the in-memory
    tree: the network listing (pagination and its retry loop) is abstracted
    to the children list of each folder; the client-side dispatch on
    mimeType is as in the source — recurse into folders with the name
    appended to the path, record images, skip anything else. -/
def list_drive_images_recursive :
    List DriveEntry → List String → List ImageRec → List ImageRec
  | [], _, results => results
  | DriveEntry.mk fid fname mime children :: rest, current_path, results =>
      if mime = FOLDER_MIME then
        list_drive_images_recursive rest current_path
          (list_drive_images_recursive children (current_path ++ [fname]) results)
      else if strStartsWith mime "image/" then
        list_drive_images_recursive rest current_path
          (results ++ [⟨fname, driveLink fid, current_path ++ [fname]⟩])
      else
        list_drive_images_recursive rest current_path results
termination_by l _ _ => sizeOf l
decreasing_by all_goals (simp_wf; try omega)

/-- `max(len(p) for p in drive_df["full_path"])` (app.py 310); the caller
    guarantees a nonempty record list. -/
def maxDepth (rs : List ImageRec) : Nat :=
  (rs.map (fun r => r.full_path.length)).foldl max 0

/-- The `level_i` column names materialized by `build_drive_dataframe`
    (app.py 311-314). -/
def levelCols (rs : List ImageRec) : List String :=
  (List.range (maxDepth rs)).map (fun i => "level_" ++ toString i)

/-- The cell of column `level_i`: `x[i] if i < len(x) else ""`
    (app.py 312). -/
def levelValue (r : ImageRec) (i : Nat) : String :=
  if i < r.full_path.length then r.full_path.getD i "" else ""

/-- `"/".join(x)` (app.py 313). -/
def path_preview (r : ImageRec) : String :=
  String.intercalate "/" r.full_path

/-- `available_fields` (app.py 315). -/
def availableDriveFields (rs : List ImageRec) : List String :=
  ["image_name"] ++ levelCols rs ++ ["image_link", "path_preview"]

/-- `HasImage entries anc nm fid`: somewhere below the children list
    `entries` there is an image named `nm` with id `fid`, whose chain of
    ancestor folder names below `entries` is `anc`. -/
inductive HasImage : List DriveEntry → List String → String → String → Prop where
  | here {entries : List DriveEntry} {fid fname mime : String} {ch : List DriveEntry} :
      DriveEntry.mk fid fname mime ch ∈ entries →
      strStartsWith mime "image/" = true →
      HasImage entries [] fname fid
  | deeper {entries : List DriveEntry} {fid fname : String} {ch : List DriveEntry}
      {anc : List String} {nm idd : String} :
      DriveEntry.mk fid fname FOLDER_MIME ch ∈ entries →
      HasImage ch anc nm idd →
      HasImage entries (fname :: anc) nm idd

-- ──────────────────────────────────────────────────────────────────────
-- BATCH ORCHESTRATOR (test.py 61-106)
-- ──────────────────────────────────────────────────────────────────────

/-- `os.path.splitext(p)[0]` for a bare filename: cut at the last dot,
    unless every character before that dot is itself a dot. -/
def splitextRoot (p : String) : String :=
  let cs := p.toList
  if cs.contains '.' then
    let root := ((cs.reverse.dropWhile (fun c => c ≠ '.')).drop 1).reverse
    if root.any (fun c => c ≠ '.') then ⟨root⟩ else p
  else p

/-- Python string comparison: lexicographic on code points. -/
def lexLeChars : List Char → List Char → Bool
  | [], _ => true
  | _ :: _, [] => false
  | a :: as, b :: bs => if a = b then lexLeChars as bs else decide (a < b)

def strLe (a b : String) : Bool := lexLeChars a.toList b.toList

def insertSorted (x : String) : List String → List String
  | [] => [x]
  | y :: ys => if strLe x y then x :: y :: ys else y :: insertSorted x ys

/-- `sorted(...)` over strings. -/
def pySorted (xs : List String) : List String := xs.foldr insertSorted []

/-- What one file's run can come to in test.py's `main`: fully imported,
    failed before a batch id was obtained, or failed after. -/
inductive FileResult where
  | imported : Int → FileResult
  | failedBeforeCreate : String → FileResult
  | failedAfterCreate : Int → String → FileResult
deriving DecidableEq

/-- One value of `log_entry` after a file is processed (test.py 71-101). -/
structure LogEntry where
  file : String
  status : String
  batch_id : Option Int
  error : Option String
deriving DecidableEq

/-- The try/except body for one file (test.py 72-100). -/
def processFile (env : String → FileResult) (name : String) : LogEntry :=
  match env name with
  | FileResult.imported b => ⟨name, "imported", some b, none⟩
  | FileResult.failedBeforeCreate e => ⟨name, "failed", none, some e⟩
  | FileResult.failedAfterCreate b e => ⟨name, "failed", some b, some e⟩

/-- The `for csv_file in sorted(all_files)` loop (test.py 69-105):
    `log_data[prefix] = log_entry` keyed by the filename stem, with the
    whole log re-dumped to disk after every file; returns the list of
    persisted snapshots together with the final log. -/
def mainGo (env : String → FileResult) : List String → List (String × LogEntry) →
    List (List (String × LogEntry)) →
    List (List (String × LogEntry)) × List (String × LogEntry)
  | [], log, snaps => (snaps.reverse, log)
  | f :: rest, log, snaps =>
      let log2 := insertA log (splitextRoot f) (processFile env f)
      mainGo env rest log2 (log2 :: snaps)

/-- The `.csv` filter and sort of test.py 63, 69. -/
def csvFiles (allFiles : List String) : List String :=
  pySorted (allFiles.filter (fun f => strEndsWith (pyLower f) ".csv"))

/-- `main()` of test.py as a function of the directory listing and of the
    per-file outcomes. -/
def mainRun (allFiles : List String) (env : String → FileResult) :
    List (List (String × LogEntry)) × List (String × LogEntry) :=
  mainGo env (csvFiles allFiles) [] []

/-- The log over a given processing order (specification-side fold used to
    state what `mainGo` accumulates). -/
def logOf (env : String → FileResult) (files : List String) : List (String × LogEntry) :=
  files.foldl (fun log f => insertA log (splitextRoot f) (processFile env f)) []

-- ──────────────────────────────────────────────────────────────────────
-- Specification-side definitions (from the spec's words, for comparison)
-- ──────────────────────────────────────────────────────────────────────

/-- Spec-side depth-first leaf enumeration of a nested mapping: the list
    of (joined path, leaf value) pairs reachable by depth-first traversal,
    in traversal order ("flatten produces exactly the set of leaf paths
    reachable by depth-first traversal, each path joined by the fixed
    separator"). -/
def dfsLeaves (pfx : String) : List (String × Json) → List (String × Json)
  | [] => []
  | (k, v) :: rest =>
      let key_path := if pfx = "" then k else pfx ++ "-" ++ k
      (match v with
       | Json.obj fields => dfsLeaves key_path fields
       | v => [(key_path, v)]) ++ dfsLeaves pfx rest
termination_by d => sizeOf d
decreasing_by all_goals (simp_wf; try omega)

/-- Last-occurrence association lookup (the value a repeated dict
    assignment sequence leaves behind). -/
def lookupLastA {α : Type} (m : List (String × α)) (k : String) : Option α :=
  lookupA m.reverse k

/-- No key occurs twice (dict-shaped association list). -/
def NodupKeys {α : Type} (m : List (String × α)) : Prop :=
  (keysA m).Nodup

-- ──────────────────────────────────────────────────────────────────────
-- Association-list lemmas
-- ──────────────────────────────────────────────────────────────────────

theorem lookupA_append {α : Type} (l1 l2 : List (String × α)) (k : String) :
    lookupA (l1 ++ l2) k =
      match lookupA l1 k with
      | some v => some v
      | none => lookupA l2 k := by
  induction l1 with
  | nil => simp [lookupA]
  | cons x xs ih =>
      obtain ⟨k0, v0⟩ := x
      by_cases h : k0 = k <;> simp [lookupA, h, ih]

theorem lookupA_insertA {α : Type} (m : List (String × α)) (key : String) (v : α)
    (k : String) :
    lookupA (insertA m key v) k = if key = k then some v else lookupA m k := by
  induction m with
  | nil => by_cases h : key = k <;> simp [insertA, lookupA, h]
  | cons x xs ih =>
      obtain ⟨k0, v0⟩ := x
      by_cases h0 : k0 = key
      · subst h0
        by_cases h : k0 = k <;> simp [insertA, lookupA, h]
      · by_cases h : k0 = k
        · subst h
          have hne : ¬(key = k0) := fun he => h0 he.symm
          simp [insertA, lookupA, h0, hne]
        · simp [insertA, lookupA, h0, h, ih]

theorem lookupA_eq_none_iff {α : Type} (m : List (String × α)) (k : String) :
    lookupA m k = none ↔ k ∉ keysA m := by
  induction m with
  | nil => simp [lookupA, keysA]
  | cons x xs ih =>
      obtain ⟨k0, v0⟩ := x
      by_cases h : k0 = k <;> simp [lookupA, keysA, h, ih]
      · tauto

theorem lookupA_mem {α : Type} (m : List (String × α)) (k : String) (v : α)
    (h : lookupA m k = some v) : (k, v) ∈ m := by
  induction m with
  | nil => simp [lookupA] at h
  | cons x xs ih =>
      obtain ⟨k0, v0⟩ := x
      by_cases h0 : k0 = k
      · subst h0
        simp [lookupA] at h
        simp [h]
      · simp [lookupA, h0] at h
        simp [ih h]

theorem mem_keysA_of_mem {α : Type} {m : List (String × α)} {k : String} {v : α}
    (h : (k, v) ∈ m) : k ∈ keysA m := by
  simp [keysA]
  exact ⟨v, h⟩

theorem lookupA_isSome_of_mem {α : Type} {m : List (String × α)} {k : String} {v : α}
    (h : (k, v) ∈ m) : lookupA m k ≠ none := by
  rw [Ne, lookupA_eq_none_iff]
  simp [mem_keysA_of_mem h]

theorem keysA_insertA_of_absent {α : Type} (m : List (String × α)) (key : String) (v : α)
    (h : lookupA m key = none) : keysA (insertA m key v) = keysA m ++ [key] := by
  induction m with
  | nil => simp [insertA, keysA]
  | cons x xs ih =>
      obtain ⟨k0, v0⟩ := x
      by_cases h0 : k0 = key
      · subst h0
        simp [lookupA] at h
      · simp [lookupA, h0] at h
        simp [insertA, keysA, h0] at ih ⊢
        exact ih h

theorem keysA_insertA_of_present {α : Type} (m : List (String × α)) (key : String) (v w : α)
    (h : lookupA m key = some w) : keysA (insertA m key v) = keysA m := by
  induction m with
  | nil => simp [lookupA] at h
  | cons x xs ih =>
      obtain ⟨k0, v0⟩ := x
      by_cases h0 : k0 = key
      · subst h0
        simp [insertA, keysA]
      · simp [lookupA, h0] at h
        simp [insertA, keysA, h0] at ih ⊢
        exact ih h

theorem NodupKeys_insertA {α : Type} (m : List (String × α)) (key : String) (v : α)
    (h : NodupKeys m) : NodupKeys (insertA m key v) := by
  rcases ho : lookupA m key with _ | w
  · have h' : (keysA m).Nodup := h
    unfold NodupKeys
    rw [keysA_insertA_of_absent m key v ho]
    rw [lookupA_eq_none_iff] at ho
    simp [List.nodup_append, h', ho]
  · unfold NodupKeys
    rw [keysA_insertA_of_present m key v w ho]
    exact h

theorem NodupKeys_updateA {α : Type} (m2 m : List (String × α))
    (h : NodupKeys m) : NodupKeys (updateA m m2) := by
  induction m2 generalizing m with
  | nil => exact h
  | cons x xs ih =>
      obtain ⟨k0, v0⟩ := x
      exact ih (insertA m k0 v0) (NodupKeys_insertA m k0 v0 h)

theorem lookupA_reverse_of_nodup {α : Type} (m : List (String × α))
    (h : NodupKeys m) (k : String) : lookupA m.reverse k = lookupA m k := by
  induction m with
  | nil => rfl
  | cons x xs ih =>
      obtain ⟨k0, v0⟩ := x
      have hn : k0 ∉ keysA xs := by
        have := h
        simp [NodupKeys, keysA] at this
        intro hm
        simp [keysA] at hm
        obtain ⟨w, hw⟩ := hm
        exact this.1 w hw
      have hx : NodupKeys xs := by
        have := h
        simp [NodupKeys, keysA] at this ⊢
        exact this.2
      rw [List.reverse_cons, lookupA_append]
      by_cases hk : k0 = k
      · subst hk
        have : lookupA xs.reverse k0 = none := by
          rw [lookupA_eq_none_iff]
          have : keysA xs.reverse = (keysA xs).reverse := by simp [keysA]
          rw [this]
          simp [hn]
        simp [this, lookupA]
      · simp [ih hx, lookupA, hk]
        cases lookupA xs k <;> rfl

theorem mem_of_lookupLastA {α : Type} (m : List (String × α)) (k : String) (v : α)
    (h : lookupLastA m k = some v) : (k, v) ∈ m := by
  have := lookupA_mem m.reverse k v h
  simpa using this

theorem lookupLastA_ne_none_of_mem {α : Type} {m : List (String × α)} {k : String} {v : α}
    (h : (k, v) ∈ m) : lookupLastA m k ≠ none := by
  unfold lookupLastA
  rw [Ne, lookupA_eq_none_iff]
  have : (k, v) ∈ m.reverse := by simpa using h
  simp [mem_keysA_of_mem this]

theorem mem_iff_lookupA_of_nodup {α : Type} (m : List (String × α))
    (h : NodupKeys m) (k : String) (v : α) :
    (k, v) ∈ m ↔ lookupA m k = some v := by
  constructor
  · intro hm
    induction m with
    | nil => simp at hm
    | cons x xs ih =>
        obtain ⟨k0, v0⟩ := x
        have hn : k0 ∉ keysA xs := by
          have := h
          simp [NodupKeys, keysA] at this
          intro hmem
          simp [keysA] at hmem
          obtain ⟨w, hw⟩ := hmem
          exact this.1 w hw
        have hx : NodupKeys xs := by
          have := h
          simp [NodupKeys, keysA] at this ⊢
          exact this.2
        rcases List.mem_cons.mp hm with heq | hmem
        · rw [Prod.ext_iff] at heq
          obtain ⟨h1, h2⟩ := heq
          simp at h1 h2
          subst h1 h2
          simp [lookupA]
        · have hk : k0 ≠ k := by
            intro he
            subst he
            exact hn (mem_keysA_of_mem hmem)
          simp [lookupA, hk]
          exact ih hx hmem
  · exact lookupA_mem m k v

theorem updateA_cons {α : Type} (m : List (String × α)) (k0 : String) (v0 : α)
    (xs : List (String × α)) :
    updateA m ((k0, v0) :: xs) = updateA (insertA m k0 v0) xs := rfl

theorem lookupLastA_cons {α : Type} (k0 : String) (v0 : α) (xs : List (String × α))
    (k : String) :
    lookupLastA ((k0, v0) :: xs) k =
      match lookupLastA xs k with
      | some v => some v
      | none => if k0 = k then some v0 else none := by
  unfold lookupLastA
  rw [List.reverse_cons, lookupA_append]
  cases lookupA xs.reverse k <;> simp [lookupA]

theorem lookupLastA_append {α : Type} (l1 l2 : List (String × α)) (k : String) :
    lookupLastA (l1 ++ l2) k =
      match lookupLastA l2 k with
      | some v => some v
      | none => lookupLastA l1 k := by
  unfold lookupLastA
  rw [List.reverse_append, lookupA_append]

theorem lookupA_updateA {α : Type} (m2 m : List (String × α)) (k : String) :
    lookupA (updateA m m2) k =
      match lookupLastA m2 k with
      | some v => some v
      | none => lookupA m k := by
  induction m2 generalizing m with
  | nil => simp [updateA, lookupLastA, lookupA]
  | cons x xs ih =>
      obtain ⟨k0, v0⟩ := x
      rw [updateA_cons, ih, lookupLastA_cons]
      cases lookupLastA xs k with
      | some v => simp
      | none =>
          rw [lookupA_insertA]
          by_cases h : k0 = k <;> simp [h]

theorem NodupKeys_flat_go : ∀ (d : List (String × Json)) (pfx : String)
    (out : List (String × Json)), NodupKeys out → NodupKeys (flat_go d pfx out) := by
  intro d pfx out
  induction d, pfx, out using flat_go.induct with
  | case1 pfx out =>
      intro h
      rw [flat_go.eq_1]
      exact h
  | case2 k rest pfx out key_path fields ih1 ih2 ih3 =>
      intro h
      rw [flat_go.eq_2]
      exact ih3 (NodupKeys_updateA _ _ h)
  | case3 k v rest pfx out key_path hne ih =>
      intro h
      rw [flat_go.eq_3 pfx out k v rest hne]
      exact ih (NodupKeys_insertA _ _ _ h)

theorem dfsLeaves_nil (pfx : String) : dfsLeaves pfx [] = [] := by
  rw [dfsLeaves]

theorem dfsLeaves_cons_obj (pfx k0 : String) (fields rest : List (String × Json)) :
    dfsLeaves pfx ((k0, Json.obj fields) :: rest) =
      dfsLeaves (if pfx = "" then k0 else pfx ++ "-" ++ k0) fields ++ dfsLeaves pfx rest := by
  rw [dfsLeaves]

theorem dfsLeaves_cons_leaf (pfx k0 : String) (v : Json) (hv : v.isObj = false)
    (rest : List (String × Json)) :
    dfsLeaves pfx ((k0, v) :: rest) =
      ((if pfx = "" then k0 else pfx ++ "-" ++ k0), v) :: dfsLeaves pfx rest := by
  cases v with
  | obj fields => simp [Json.isObj] at hv
  | null => rw [dfsLeaves] <;> simp
  | bool b => rw [dfsLeaves] <;> simp
  | num n => rw [dfsLeaves] <;> simp
  | str s => rw [dfsLeaves] <;> simp
  | arr xs => rw [dfsLeaves] <;> simp

theorem flat_go_cons_leaf (pfx : String) (out : List (String × Json)) (k0 : String)
    (v : Json) (hv : v.isObj = false) (rest : List (String × Json)) :
    flat_go ((k0, v) :: rest) pfx out =
      flat_go rest pfx (insertA out (if pfx = "" then k0 else pfx ++ "-" ++ k0) v) := by
  apply flat_go.eq_3
  intro a ha
  rw [ha] at hv
  simp [Json.isObj] at hv

theorem NodupKeys_nil {α : Type} : NodupKeys ([] : List (String × α)) := by
  simp [NodupKeys, keysA]

/-- The value `_flatten_leaves`' accumulating loop leaves at each key: the
    last depth-first leaf written at that path, falling back to the
    accumulator `out`. -/
theorem lookupA_flat_go : ∀ (d : List (String × Json)) (pfx : String)
    (out : List (String × Json)) (k : String),
    lookupA (flat_go d pfx out) k =
      match lookupLastA (dfsLeaves pfx d) k with
      | some v => some v
      | none => lookupA out k := by
  intro d pfx out
  induction d, pfx, out using flat_go.induct with
  | case1 pfx out =>
      intro k
      rw [flat_go.eq_1, dfsLeaves_nil]
      simp [lookupLastA, lookupA]
  | case2 k0 rest pfx out key_path fields ih1 ih2 ih3 =>
      intro k
      have hkp : key_path = if pfx = "" then k0 else pfx ++ "-" ++ k0 := rfl
      rw [hkp] at ih1 ih3
      rw [flat_go.eq_2, ih3 k, dfsLeaves_cons_obj, lookupLastA_append]
      cases h1 : lookupLastA (dfsLeaves pfx rest) k with
      | some v => simp
      | none =>
          have hnodup : NodupKeys (flat_go fields (if pfx = "" then k0 else pfx ++ "-" ++ k0) []) :=
            NodupKeys_flat_go _ _ [] NodupKeys_nil
          have hrevF : lookupLastA (flat_go fields (if pfx = "" then k0 else pfx ++ "-" ++ k0) []) k
              = lookupA (flat_go fields (if pfx = "" then k0 else pfx ++ "-" ++ k0) []) k :=
            lookupA_reverse_of_nodup _ hnodup k
          have hfin : lookupLastA (flat_go fields (if pfx = "" then k0 else pfx ++ "-" ++ k0) []) k
              = lookupLastA (dfsLeaves (if pfx = "" then k0 else pfx ++ "-" ++ k0) fields) k := by
            rw [hrevF, ih1 k]
            cases lookupLastA (dfsLeaves (if pfx = "" then k0 else pfx ++ "-" ++ k0) fields) k <;> rfl
          simp only []
          rw [lookupA_updateA, hfin]
          cases lookupLastA (dfsLeaves (if pfx = "" then k0 else pfx ++ "-" ++ k0) fields) k <;> rfl
  | case3 k0 v rest pfx out key_path hne ih =>
      intro k
      have hv : v.isObj = false := by
        cases v with
        | obj fields => exact (hne fields rfl).elim
        | null => rfl
        | bool b => rfl
        | num n => rfl
        | str s => rfl
        | arr xs => rfl
      have hkp : key_path = if pfx = "" then k0 else pfx ++ "-" ++ k0 := rfl
      rw [hkp] at ih
      rw [flat_go_cons_leaf pfx out k0 v hv rest, ih k, dfsLeaves_cons_leaf pfx k0 v hv rest,
        lookupLastA_cons]
      cases h1 : lookupLastA (dfsLeaves pfx rest) k with
      | some w => simp
      | none =>
          rw [lookupA_insertA]
          by_cases hk : (if pfx = "" then k0 else pfx ++ "-" ++ k0) = k <;> simp [hk]

/-- `_flatten_leaves` writes only leaf (non-mapping) values. -/
theorem dfsLeaves_values_not_obj : ∀ (pfx : String) (d : List (String × Json))
    (k : String) (v : Json), (k, v) ∈ dfsLeaves pfx d → v.isObj = false := by
  intro pfx d
  induction pfx, d using dfsLeaves.induct with
  | case1 pfx => simp [dfsLeaves_nil]
  | case2 pfx k0 v0 rest key_path ih1 ih2 =>
      intro k v hm
      cases v0 with
      | obj fields =>
          rw [dfsLeaves_cons_obj] at hm
          rcases List.mem_append.mp hm with h | h
          · exact ih1 k v h
          · exact ih2 k v h
      | null =>
          rw [dfsLeaves_cons_leaf pfx k0 Json.null rfl rest] at hm
          rcases List.mem_cons.mp hm with h | h
          · simp at h
            rw [h.2]
            rfl
          · exact ih2 k v h
      | bool b =>
          rw [dfsLeaves_cons_leaf pfx k0 (Json.bool b) rfl rest] at hm
          rcases List.mem_cons.mp hm with h | h
          · simp at h
            rw [h.2]
            rfl
          · exact ih2 k v h
      | num n =>
          rw [dfsLeaves_cons_leaf pfx k0 (Json.num n) rfl rest] at hm
          rcases List.mem_cons.mp hm with h | h
          · simp at h
            rw [h.2]
            rfl
          · exact ih2 k v h
      | str s =>
          rw [dfsLeaves_cons_leaf pfx k0 (Json.str s) rfl rest] at hm
          rcases List.mem_cons.mp hm with h | h
          · simp at h
            rw [h.2]
            rfl
          · exact ih2 k v h
      | arr xs =>
          rw [dfsLeaves_cons_leaf pfx k0 (Json.arr xs) rfl rest] at hm
          rcases List.mem_cons.mp hm with h | h
          · simp at h
            rw [h.2]
            rfl
          · exact ih2 k v h

/-- The work-item items with `workItemId` removed (the loop skips it). -/
def nonWid (items : List (String × Json)) : List (String × Json) :=
  items.filter (fun kv => kv.1 != "workItemId")

theorem wiGo_spec : ∀ (items row : List (String × Json)),
    (∀ v, ("inputData", v) ∈ items → v.isObj = false) →
    ∃ res, wiGo items row = Except.ok res ∧
      (NodupKeys row → NodupKeys res) ∧
      (∀ k, lookupA res k =
        match lookupLastA (dfsLeaves "workitems" (nonWid items)) k with
        | some v => some v
        | none => lookupA row k) := by
  intro items
  induction items with
  | nil =>
      intro row _
      refine ⟨row, rfl, fun h => h, ?_⟩
      intro k
      simp [nonWid, dfsLeaves_nil, lookupLastA, lookupA]
  | cons x rest ih =>
      obtain ⟨k0, v⟩ := x
      intro row h
      have hrest : ∀ v, ("inputData", v) ∈ rest → v.isObj = false := by
        intro w hw
        exact h w (List.mem_cons_of_mem _ hw)
      by_cases hwid : k0 = "workItemId"
      · subst hwid
        have hstep : wiGo (("workItemId", v) :: rest) row = wiGo rest row := by
          simp [wiGo]
        have hnw : nonWid (("workItemId", v) :: rest) = nonWid rest := by
          simp [nonWid]
        rw [hstep, hnw]
        exact ih row hrest
      · cases v with
        | obj fs =>
            by_cases hin : k0 = "inputData"
            · subst hin
              have : (Json.obj fs).isObj = false := h (Json.obj fs) (List.mem_cons_self _ _)
              simp [Json.isObj] at this
            · have hstep : wiGo ((k0, Json.obj fs) :: rest) row =
                  wiGo rest (updateA row (flatten_leaves fs ("workitems-" ++ k0))) := by
                simp [wiGo, hwid, hin]
              have hnw : nonWid ((k0, Json.obj fs) :: rest) =
                  (k0, Json.obj fs) :: nonWid rest := by
                simp [nonWid, hwid]
              obtain ⟨res, hok, hnd, hlk⟩ := ih (updateA row (flatten_leaves fs ("workitems-" ++ k0))) hrest
              refine ⟨res, by rw [hstep]; exact hok, ?_, ?_⟩
              · intro hr
                exact hnd (NodupKeys_updateA _ _ hr)
              · intro k
                rw [hlk k, hnw, dfsLeaves_cons_obj, lookupLastA_append]
                have hplit : ("workitems" ++ "-" ++ k0 : String) = "workitems-" ++ k0 := rfl
                have hNe : ("workitems" : String) ≠ "" := by decide
                rw [if_neg hNe, hplit]
                cases h1 : lookupLastA (dfsLeaves "workitems" (nonWid rest)) k with
                | some w => simp
                | none =>
                    simp only []
                    unfold flatten_leaves
                    rw [lookupA_updateA]
                    have hnodup : NodupKeys (flat_go fs ("workitems-" ++ k0) []) :=
                      NodupKeys_flat_go _ _ [] NodupKeys_nil
                    have hrevF : lookupLastA (flat_go fs ("workitems-" ++ k0) []) k
                        = lookupA (flat_go fs ("workitems-" ++ k0) []) k :=
                      lookupA_reverse_of_nodup _ hnodup k
                    have hfin : lookupLastA (flat_go fs ("workitems-" ++ k0) []) k
                        = lookupLastA (dfsLeaves ("workitems-" ++ k0) fs) k := by
                      rw [hrevF, lookupA_flat_go]
                      cases lookupLastA (dfsLeaves ("workitems-" ++ k0) fs) k <;> rfl
                    rw [hfin]
                    cases lookupLastA (dfsLeaves ("workitems-" ++ k0) fs) k <;> rfl
        | null =>
            have hstep : wiGo ((k0, Json.null) :: rest) row =
                wiGo rest (insertA row ("workitems-" ++ k0) Json.null) := by
              simp [wiGo, hwid]
            have hnw : nonWid ((k0, Json.null) :: rest) = (k0, Json.null) :: nonWid rest := by
              simp [nonWid, hwid]
            obtain ⟨res, hok, hnd, hlk⟩ := ih (insertA row ("workitems-" ++ k0) Json.null) hrest
            refine ⟨res, by rw [hstep]; exact hok, ?_, ?_⟩
            · intro hr
              exact hnd (NodupKeys_insertA _ _ _ hr)
            · intro k
              rw [hlk k, hnw, dfsLeaves_cons_leaf "workitems" k0 Json.null rfl (nonWid rest),
                lookupLastA_cons]
              have hplit : ("workitems" ++ "-" ++ k0 : String) = "workitems-" ++ k0 := rfl
              have hNe : ("workitems" : String) ≠ "" := by decide
              rw [if_neg hNe, hplit]
              cases h1 : lookupLastA (dfsLeaves "workitems" (nonWid rest)) k with
              | some w => simp
              | none =>
                  simp only []
                  rw [lookupA_insertA]
                  by_cases hk : ("workitems-" ++ k0 : String) = k <;> simp [hk]
        | bool b =>
            have hstep : wiGo ((k0, Json.bool b) :: rest) row =
                wiGo rest (insertA row ("workitems-" ++ k0) (Json.bool b)) := by
              simp [wiGo, hwid]
            have hnw : nonWid ((k0, Json.bool b) :: rest) = (k0, Json.bool b) :: nonWid rest := by
              simp [nonWid, hwid]
            obtain ⟨res, hok, hnd, hlk⟩ := ih (insertA row ("workitems-" ++ k0) (Json.bool b)) hrest
            refine ⟨res, by rw [hstep]; exact hok, ?_, ?_⟩
            · intro hr
              exact hnd (NodupKeys_insertA _ _ _ hr)
            · intro k
              rw [hlk k, hnw, dfsLeaves_cons_leaf "workitems" k0 (Json.bool b) rfl (nonWid rest),
                lookupLastA_cons]
              have hplit : ("workitems" ++ "-" ++ k0 : String) = "workitems-" ++ k0 := rfl
              have hNe : ("workitems" : String) ≠ "" := by decide
              rw [if_neg hNe, hplit]
              cases h1 : lookupLastA (dfsLeaves "workitems" (nonWid rest)) k with
              | some w => simp
              | none =>
                  simp only []
                  rw [lookupA_insertA]
                  by_cases hk : ("workitems-" ++ k0 : String) = k <;> simp [hk]
        | num n =>
            have hstep : wiGo ((k0, Json.num n) :: rest) row =
                wiGo rest (insertA row ("workitems-" ++ k0) (Json.num n)) := by
              simp [wiGo, hwid]
            have hnw : nonWid ((k0, Json.num n) :: rest) = (k0, Json.num n) :: nonWid rest := by
              simp [nonWid, hwid]
            obtain ⟨res, hok, hnd, hlk⟩ := ih (insertA row ("workitems-" ++ k0) (Json.num n)) hrest
            refine ⟨res, by rw [hstep]; exact hok, ?_, ?_⟩
            · intro hr
              exact hnd (NodupKeys_insertA _ _ _ hr)
            · intro k
              rw [hlk k, hnw, dfsLeaves_cons_leaf "workitems" k0 (Json.num n) rfl (nonWid rest),
                lookupLastA_cons]
              have hplit : ("workitems" ++ "-" ++ k0 : String) = "workitems-" ++ k0 := rfl
              have hNe : ("workitems" : String) ≠ "" := by decide
              rw [if_neg hNe, hplit]
              cases h1 : lookupLastA (dfsLeaves "workitems" (nonWid rest)) k with
              | some w => simp
              | none =>
                  simp only []
                  rw [lookupA_insertA]
                  by_cases hk : ("workitems-" ++ k0 : String) = k <;> simp [hk]
        | str s =>
            have hstep : wiGo ((k0, Json.str s) :: rest) row =
                wiGo rest (insertA row ("workitems-" ++ k0) (Json.str s)) := by
              simp [wiGo, hwid]
            have hnw : nonWid ((k0, Json.str s) :: rest) = (k0, Json.str s) :: nonWid rest := by
              simp [nonWid, hwid]
            obtain ⟨res, hok, hnd, hlk⟩ := ih (insertA row ("workitems-" ++ k0) (Json.str s)) hrest
            refine ⟨res, by rw [hstep]; exact hok, ?_, ?_⟩
            · intro hr
              exact hnd (NodupKeys_insertA _ _ _ hr)
            · intro k
              rw [hlk k, hnw, dfsLeaves_cons_leaf "workitems" k0 (Json.str s) rfl (nonWid rest),
                lookupLastA_cons]
              have hplit : ("workitems" ++ "-" ++ k0 : String) = "workitems-" ++ k0 := rfl
              have hNe : ("workitems" : String) ≠ "" := by decide
              rw [if_neg hNe, hplit]
              cases h1 : lookupLastA (dfsLeaves "workitems" (nonWid rest)) k with
              | some w => simp
              | none =>
                  simp only []
                  rw [lookupA_insertA]
                  by_cases hk : ("workitems-" ++ k0 : String) = k <;> simp [hk]
        | arr xs =>
            have hstep : wiGo ((k0, Json.arr xs) :: rest) row =
                wiGo rest (insertA row ("workitems-" ++ k0) (Json.arr xs)) := by
              simp [wiGo, hwid]
            have hnw : nonWid ((k0, Json.arr xs) :: rest) = (k0, Json.arr xs) :: nonWid rest := by
              simp [nonWid, hwid]
            obtain ⟨res, hok, hnd, hlk⟩ := ih (insertA row ("workitems-" ++ k0) (Json.arr xs)) hrest
            refine ⟨res, by rw [hstep]; exact hok, ?_, ?_⟩
            · intro hr
              exact hnd (NodupKeys_insertA _ _ _ hr)
            · intro k
              rw [hlk k, hnw, dfsLeaves_cons_leaf "workitems" k0 (Json.arr xs) rfl (nonWid rest),
                lookupLastA_cons]
              have hplit : ("workitems" ++ "-" ++ k0 : String) = "workitems-" ++ k0 := rfl
              have hNe : ("workitems" : String) ≠ "" := by decide
              rw [if_neg hNe, hplit]
              cases h1 : lookupLastA (dfsLeaves "workitems" (nonWid rest)) k with
              | some w => simp
              | none =>
                  simp only []
                  rw [lookupA_insertA]
                  by_cases hk : ("workitems-" ++ k0 : String) = k <;> simp [hk]

/-- The depth-first chunk one item contributes. -/
def dfsChunk (pfx k0 : String) : Json → List (String × Json)
  | Json.obj fields => dfsLeaves (if pfx = "" then k0 else pfx ++ "-" ++ k0) fields
  | v => [((if pfx = "" then k0 else pfx ++ "-" ++ k0), v)]

theorem dfsLeaves_cons (pfx k0 : String) (v0 : Json) (rest : List (String × Json)) :
    dfsLeaves pfx ((k0, v0) :: rest) = dfsChunk pfx k0 v0 ++ dfsLeaves pfx rest := by
  cases v0 with
  | obj fields => rw [dfsLeaves.eq_2, dfsChunk]
  | null => rw [dfsLeaves_cons_leaf pfx k0 Json.null rfl rest]; rfl
  | bool b => rw [dfsLeaves_cons_leaf pfx k0 (Json.bool b) rfl rest]; rfl
  | num n => rw [dfsLeaves_cons_leaf pfx k0 (Json.num n) rfl rest]; rfl
  | str s => rw [dfsLeaves_cons_leaf pfx k0 (Json.str s) rfl rest]; rfl
  | arr xs => rw [dfsLeaves_cons_leaf pfx k0 (Json.arr xs) rfl rest]; rfl

theorem dfs_nonWid_mem : ∀ (wi : List (String × Json)),
    (∀ v, ("workItemId", v) ∈ wi → v.isObj = false) →
    ∀ k v, ((k, v) ∈ dfsLeaves "workitems" wi ↔
      ((k, v) ∈ dfsLeaves "workitems" (nonWid wi) ∨
        (k = "workitems-workItemId" ∧ ("workItemId", v) ∈ wi))) := by
  intro wi
  induction wi with
  | nil =>
      intro _ k v
      simp [dfsLeaves_nil, nonWid]
  | cons x rest ih =>
      obtain ⟨k0, v0⟩ := x
      intro h2 k v
      have h2r : ∀ w, ("workItemId", w) ∈ rest → w.isObj = false := fun w hw =>
        h2 w (List.mem_cons_of_mem _ hw)
      by_cases hwid : k0 = "workItemId"
      · subst hwid
        have hv0 : v0.isObj = false := h2 v0 (List.mem_cons_self _ _)
        have hnw : nonWid (("workItemId", v0) :: rest) = nonWid rest := by simp [nonWid]
        rw [dfsLeaves_cons_leaf "workitems" "workItemId" v0 hv0 rest, hnw]
        have hNe : ¬("workitems" : String) = "" := by decide
        rw [if_neg hNe]
        have hplit : ("workitems" ++ "-" ++ "workItemId" : String) = "workitems-workItemId" := rfl
        rw [hplit]
        constructor
        · intro hm
          rcases List.mem_cons.mp hm with he | hm2
          · simp at he
            exact Or.inr ⟨he.1, by rw [he.2]; exact List.mem_cons_self _ _⟩
          · rcases (ih h2r k v).mp hm2 with hl | hr
            · exact Or.inl hl
            · exact Or.inr ⟨hr.1, List.mem_cons_of_mem _ hr.2⟩
        · intro hm
          rcases hm with hl | ⟨hk, hmem⟩
          · exact List.mem_cons_of_mem _ ((ih h2r k v).mpr (Or.inl hl))
          · rcases List.mem_cons.mp hmem with he | hm2
            · simp at he
              subst hk
              rw [he]
              exact List.mem_cons_self _ _
            · exact List.mem_cons_of_mem _ ((ih h2r k v).mpr (Or.inr ⟨hk, hm2⟩))
      · have hnw : nonWid ((k0, v0) :: rest) = (k0, v0) :: nonWid rest := by
          simp [nonWid, hwid]
        rw [hnw, dfsLeaves_cons, dfsLeaves_cons]
        constructor
        · intro hm
          rcases List.mem_append.mp hm with hc | hm2
          · exact Or.inl (List.mem_append_left _ hc)
          · rcases (ih h2r k v).mp hm2 with hl | hr
            · exact Or.inl (List.mem_append_right _ hl)
            · refine Or.inr ⟨hr.1, List.mem_cons_of_mem _ hr.2⟩
        · intro hm
          rcases hm with hl | ⟨hk, hmem⟩
          · rcases List.mem_append.mp hl with hc | hm2
            · exact List.mem_append_left _ hc
            · exact List.mem_append_right _ ((ih h2r k v).mpr (Or.inl hm2))
          · rcases List.mem_cons.mp hmem with he | hm2
            · exfalso
              have : ("workItemId" : String) = k0 := congrArg Prod.fst he
              exact hwid this.symm
            · exact List.mem_append_right _ ((ih h2r k v).mpr (Or.inr ⟨hk, hm2⟩))

theorem wiRow_core (wi row0 : List (String × Json))
    (h1 : ∀ v, ("inputData", v) ∈ wi → v.isObj = false)
    (h2 : ∀ v, ("workItemId", v) ∈ wi → v.isObj = false)
    (hnd0 : NodupKeys row0)
    (hr0 : ∀ k, lookupA row0 k =
      if k = "workitems-workItemId" then lookupA wi "workItemId" else none) :
    ∃ row, wiGo wi row0 = Except.ok row ∧
      (∀ k, (∃ v, (k, v) ∈ row) ↔ (∃ v, (k, v) ∈ dfsLeaves "workitems" wi)) ∧
      (∀ k v, (k, v) ∈ row → (k, v) ∈ dfsLeaves "workitems" wi) ∧
      (∀ k v, (k, v) ∈ row → v.isObj = false) := by
  obtain ⟨res, hok, hnd, hlk⟩ := wiGo_spec wi row0 h1
  have hresnd : NodupKeys res := hnd hnd0
  have hsub : ∀ k v, (k, v) ∈ res → (k, v) ∈ dfsLeaves "workitems" wi := by
    intro k v hmem
    have hl := (mem_iff_lookupA_of_nodup res hresnd k v).mp hmem
    rw [hlk k] at hl
    rcases hcase : lookupLastA (dfsLeaves "workitems" (nonWid wi)) k with _ | w
    · rw [hcase] at hl
      simp only [] at hl
      rw [hr0 k] at hl
      by_cases hk : k = "workitems-workItemId"
      · rw [if_pos hk] at hl
        have hmemwi : ("workItemId", v) ∈ wi := lookupA_mem wi "workItemId" v hl
        exact (dfs_nonWid_mem wi h2 k v).mpr (Or.inr ⟨hk, hmemwi⟩)
      · rw [if_neg hk] at hl
        exact absurd hl (by simp)
    · rw [hcase] at hl
      simp only [] at hl
      have hw : w = v := by
        injection hl
      subst hw
      have hin := mem_of_lookupLastA _ _ _ hcase
      exact (dfs_nonWid_mem wi h2 k w).mpr (Or.inl hin)
  refine ⟨res, hok, ?_, hsub, ?_⟩
  · intro k
    constructor
    · rintro ⟨v, hv⟩
      exact ⟨v, hsub k v hv⟩
    · rintro ⟨v, hv⟩
      rcases (dfs_nonWid_mem wi h2 k v).mp hv with hin | ⟨hk, hmw⟩
      · have hne := lookupLastA_ne_none_of_mem hin
        rcases hcase : lookupLastA (dfsLeaves "workitems" (nonWid wi)) k with _ | w
        · exact absurd hcase hne
        · have : lookupA res k = some w := by
            rw [hlk k, hcase]
          exact ⟨w, lookupA_mem res k w this⟩
      · subst hk
        have hne : lookupA wi "workItemId" ≠ none := lookupA_isSome_of_mem hmw
        rcases hwl : lookupA wi "workItemId" with _ | w
        · exact absurd hwl hne
        · have hrow0 : lookupA row0 "workitems-workItemId" = some w := by
            rw [hr0, if_pos rfl, hwl]
          rcases hcase : lookupLastA (dfsLeaves "workitems" (nonWid wi)) "workitems-workItemId"
              with _ | u
          · have : lookupA res "workitems-workItemId" = some w := by
              rw [hlk, hcase]
              simp only []
              exact hrow0
            exact ⟨w, lookupA_mem res _ w this⟩
          · have : lookupA res "workitems-workItemId" = some u := by
              rw [hlk, hcase]
            exact ⟨u, lookupA_mem res _ u this⟩
  · intro k v hv
    exact dfsLeaves_values_not_obj "workitems" wi k v (hsub k v hv)

-- ──────────────────────────────────────────────────────────────────────
-- Lemmas about str.strip (for the auth-header normalization)
-- ──────────────────────────────────────────────────────────────────────

theorem dropWhile_idem {α : Type} (p : α → Bool) (l : List α) :
    (l.dropWhile p).dropWhile p = l.dropWhile p := by
  induction l with
  | nil => rfl
  | cons c cs ih =>
      by_cases h : p c = true
      · simp [List.dropWhile_cons, h, ih]
      · simp [List.dropWhile_cons, h]

theorem dropWhile_head?_false {α : Type} (p : α → Bool) (l : List α) (c : α)
    (h : (l.dropWhile p).head? = some c) : p c = false := by
  induction l with
  | nil => simp [List.dropWhile] at h
  | cons x xs ih =>
      by_cases hx : p x = true
      · rw [List.dropWhile_cons, if_pos hx] at h
        exact ih h
      · rw [List.dropWhile_cons, if_neg hx] at h
        simp at h
        rw [← h]
        simpa using hx

theorem dropWhile_getLast? {α : Type} (p : α → Bool) (l : List α)
    (h : l.dropWhile p ≠ []) : (l.dropWhile p).getLast? = l.getLast? := by
  induction l with
  | nil => simp [List.dropWhile] at h
  | cons x xs ih =>
      by_cases hx : p x = true
      · rw [List.dropWhile_cons, if_pos hx] at h ⊢
        rw [ih h]
        have hxs : xs ≠ [] := by
          intro he
          rw [he] at h
          simp [List.dropWhile] at h
        cases xs with
        | nil => exact absurd rfl hxs
        | cons y ys => rw [List.getLast?_cons_cons]
      · rw [List.dropWhile_cons, if_neg hx]

theorem stripL_getLast?_false (l : List Char) (c : Char)
    (h : (stripL l).getLast? = some c) : pyIsSpace c = false := by
  unfold stripL at h
  rw [List.getLast?_reverse] at h
  exact dropWhile_head?_false pyIsSpace _ c h

theorem stripL_head?_false (l : List Char) (c : Char)
    (h : (stripL l).head? = some c) : pyIsSpace c = false := by
  unfold stripL at h
  rw [List.head?_reverse] at h
  have hne : (l.dropWhile pyIsSpace).reverse.dropWhile pyIsSpace ≠ [] := by
    intro he
    rw [he] at h
    simp at h
  rw [dropWhile_getLast? pyIsSpace _ hne, List.getLast?_reverse] at h
  exact dropWhile_head?_false pyIsSpace _ c h

theorem dropWhile_eq_self_of_head {α : Type} (p : α → Bool) (l : List α)
    (h : ∀ c, l.head? = some c → p c = false) : l.dropWhile p = l := by
  cases l with
  | nil => rfl
  | cons x xs =>
      have hx : p x = false := h x rfl
      rw [List.dropWhile_cons, if_neg (by simp [hx])]

/-- A list whose two ends are non-whitespace is untouched by strip. -/
theorem stripL_eq_self (l : List Char)
    (h1 : ∀ c, l.head? = some c → pyIsSpace c = false)
    (h2 : ∀ c, l.getLast? = some c → pyIsSpace c = false) : stripL l = l := by
  unfold stripL
  rw [dropWhile_eq_self_of_head pyIsSpace l h1]
  rw [dropWhile_eq_self_of_head pyIsSpace l.reverse (by
    intro c hc
    rw [List.head?_reverse] at hc
    exact h2 c hc)]
  exact List.reverse_reverse l

theorem stripL_idem (l : List Char) : stripL (stripL l) = stripL l :=
  stripL_eq_self (stripL l) (stripL_head?_false l) (stripL_getLast?_false l)

theorem pyStrip_idem (s : String) : pyStrip (pyStrip s) = pyStrip s := by
  unfold pyStrip
  exact congrArg String.mk (stripL_idem s.toList)

theorem pyStrip_ne_empty_toList {t : String} (h : pyStrip t ≠ "") :
    stripL t.toList ≠ [] := by
  intro he
  apply h
  unfold pyStrip
  rw [he]

theorem pyStrip_prepend_bearer (t : String) (h : pyStrip t ≠ "") :
    pyStrip ("Bearer " ++ pyStrip t) = "Bearer " ++ pyStrip t := by
  have hl : ("Bearer " ++ pyStrip t).toList = "Bearer ".toList ++ stripL t.toList := by
    show ("Bearer " ++ pyStrip t).data = _
    rw [String.data_append]
    rfl
  have key : stripL ("Bearer " ++ pyStrip t).toList = ("Bearer " ++ pyStrip t).toList := by
    apply stripL_eq_self
    · intro c hc
      rw [hl] at hc
      have hB : ("Bearer ".toList ++ stripL t.toList).head? = some 'B' := rfl
      rw [hB] at hc
      injection hc with hc
      rw [← hc]
      decide
    · intro c hc
      rw [hl, List.getLast?_append_of_ne_nil _ (pyStrip_ne_empty_toList h)] at hc
      exact stripL_getLast?_false t.toList c hc
  exact congrArg String.mk key

theorem pyLower_append (a b : String) : pyLower (a ++ b) = pyLower a ++ pyLower b := by
  show String.mk (List.map pyLowerChar (a ++ b).data) =
    String.mk (List.map pyLowerChar a.data ++ List.map pyLowerChar b.data)
  rw [String.data_append, List.map_append]

theorem strStartsWith_append (a b : String) : strStartsWith (a ++ b) a = true := by
  unfold strStartsWith
  rw [List.isPrefixOf_iff_prefix]
  show a.data <+: (a ++ b).data
  rw [String.data_append]
  exact List.prefix_append _ _

/-- C7 counterexample: for the token `"Bearer Bearer x"` the emitted
    `Authorization` value is `"Bearer Bearer x"` — it begins with `"Bearer "`
    and its remainder begins with `"Bearer "` again, so the built header
    value carries two `"Bearer "` prefixes rather than exactly one. -/
theorem C7_bearer_counterexample :
    auth_headers "Bearer Bearer x" = [("Authorization", "Bearer Bearer x")] ∧
    ("Bearer Bearer x" : String) = "Bearer " ++ "Bearer x" ∧
    strStartsWith "Bearer x" "Bearer " = true := by
  refine ⟨?_, rfl, by decide⟩
  rfl

/-- C7 (amended): the normalization adds at most one `"Bearer "` prefix —
    a stripped nonempty token without a case-insensitive `"bearer "` prefix
    gets `"Bearer "` prepended exactly once; a token already carrying the
    (case-insensitive) prefix is passed through unchanged (so a repeated or
    lower-case prefix supplied by the caller is kept as-is); a blank token
    produces no header; and the normalization is idempotent. -/
theorem C7_bearer_amended (token : String) :
    (pyStrip token ≠ "" → strStartsWith (pyLower (pyStrip token)) "bearer " = false →
      auth_headers token = [("Authorization", "Bearer " ++ pyStrip token)]) ∧
    (strStartsWith (pyLower (pyStrip token)) "bearer " = true →
      auth_headers token = [("Authorization", pyStrip token)]) ∧
    (pyStrip token = "" → auth_headers token = []) ∧
    normalizeToken (normalizeToken token) = normalizeToken token := by
  have hbearer_ne : ∀ s : String, ("Bearer " ++ s : String) ≠ "" := by
    intro s he
    have hd : ("Bearer " ++ s).data = [] := congrArg String.data he
    rw [String.data_append] at hd
    rcases List.append_eq_nil.mp hd with ⟨h1, _⟩
    exact absurd h1 (by decide)
  refine ⟨?_, ?_, ?_, ?_⟩
  · intro h1 h2
    have hnorm : normalizeToken token = "Bearer " ++ pyStrip token := by
      unfold normalizeToken
      rw [if_pos ⟨h1, by simp [h2]⟩]
    show (if normalizeToken token ≠ "" then [("Authorization", normalizeToken token)] else []) = _
    rw [hnorm, if_pos (hbearer_ne (pyStrip token))]
  · intro h2
    have hne : pyStrip token ≠ "" := by
      intro he
      rw [he] at h2
      exact absurd h2 (by decide)
    have hnorm : normalizeToken token = pyStrip token := by
      unfold normalizeToken
      rw [if_neg (by simp [h2])]
    show (if normalizeToken token ≠ "" then [("Authorization", normalizeToken token)] else []) = _
    rw [hnorm, if_pos hne]
  · intro h0
    have hnorm : normalizeToken token = "" := by
      unfold normalizeToken
      rw [if_neg (by simp [h0])]
      exact h0
    show (if normalizeToken token ≠ "" then [("Authorization", normalizeToken token)] else []) = _
    rw [hnorm]
    simp
  · by_cases h0 : pyStrip token = ""
    · have hn : normalizeToken token = "" := by
        unfold normalizeToken
        rw [if_neg (by simp [h0])]
        exact h0
      rw [hn]
      rfl
    · by_cases hb : strStartsWith (pyLower (pyStrip token)) "bearer " = true
      · have hn : normalizeToken token = pyStrip token := by
          unfold normalizeToken
          rw [if_neg (by simp [hb])]
        rw [hn]
        unfold normalizeToken
        rw [pyStrip_idem]
        rw [if_neg (by simp [hb])]
      · have hbf : strStartsWith (pyLower (pyStrip token)) "bearer " = false := by
          simpa using hb
        have hn : normalizeToken token = "Bearer " ++ pyStrip token := by
          unfold normalizeToken
          rw [if_pos ⟨h0, by simp [hbf]⟩]
        rw [hn]
        unfold normalizeToken
        rw [pyStrip_prepend_bearer token h0]
        have hsw : strStartsWith (pyLower ("Bearer " ++ pyStrip token)) "bearer " = true := by
          rw [pyLower_append]
          have hbl : pyLower "Bearer " = "bearer " := rfl
          rw [hbl]
          exact strStartsWith_append "bearer " (pyLower (pyStrip token))
        rw [if_neg (by simp [hsw])]

/-- C7 witness: the amended normalization facts at concrete tokens. -/
theorem C7_bearer_witness :
    auth_headers "abc" = [("Authorization", "Bearer " ++ pyStrip "abc")] ∧
    auth_headers "Bearer xyz" = [("Authorization", pyStrip "Bearer xyz")] ∧
    auth_headers "   " = [] ∧
    normalizeToken (normalizeToken "abc") = normalizeToken "abc" :=
  ⟨(C7_bearer_amended "abc").1 (by decide) (by decide),
   (C7_bearer_amended "Bearer xyz").2.1 (by decide),
   (C7_bearer_amended "   ").2.2.1 (by decide),
   (C7_bearer_amended "abc").2.2.2⟩

-- ──────────────────────────────────────────────────────────────────────
-- CLAIMS
-- ──────────────────────────────────────────────────────────────────────

/-- C10: looking up a source field for an output column is total — it
    returns "." both for the literal "." placeholder and for a field
    absent from the row, and otherwise the row's value converted to a
    string, so output-table construction cannot fail on a missing field. -/
theorem C10_get_value_total (row : List (String × Cell)) (field : String) :
    (field = "." → get_value row field = ".") ∧
    (lookupA row field = none → get_value row field = ".") ∧
    (∀ c, field ≠ "." → lookupA row field = some c →
      get_value row field = pyStrCell c) := by
  refine ⟨?_, ?_, ?_⟩
  · intro h
    simp [get_value, h]
  · intro h
    by_cases hf : field = "."
    · simp [get_value, hf]
    · simp [get_value, hf, h]
  · intro c hf hc
    simp [get_value, hf, hc]

/-- C10 witness: the three cases of `get_value` at a concrete row. -/
theorem C10_get_value_witness :
    get_value [("a", Cell.val (Json.str "v"))] "." = "." ∧
    get_value [("a", Cell.val (Json.str "v"))] "b" = "." ∧
    get_value [("a", Cell.val (Json.str "v"))] "a" = pyStrCell (Cell.val (Json.str "v")) :=
  ⟨(C10_get_value_total [("a", Cell.val (Json.str "v"))] ".").1 rfl,
   (C10_get_value_total [("a", Cell.val (Json.str "v"))] "b").2.1 rfl,
   (C10_get_value_total [("a", Cell.val (Json.str "v"))] "a").2.2
     (Cell.val (Json.str "v")) (by decide) rfl⟩

/-- The C1 input document
    `{"workitems": [{"inputData": {"Image_2": "b.png", "Image_1": "a.png", "note": "x"}}]}`. -/
def jsonDocC1 : Json :=
  Json.obj [("workitems", Json.arr [Json.obj [("inputData", Json.obj
    [("Image_2", Json.str "b.png"), ("Image_1", Json.str "a.png"),
     ("note", Json.str "x")])]])]

/-- The record the code actually produces for `jsonDocC1`. -/
def rowC1 : List (String × Json) :=
  [("workitems-inputData-Image_2", Json.str "b.png"),
   ("workitems-inputData-Image_1", Json.str "a.png"),
   ("workitems-inputData-note", Json.str "x")]

/-- C1 counterexample: at the claim's input the record builder produces NO
    `workitems-inputData-Image` key, and it keeps the individual
    `workitems-inputData-Image_1` / `_2` keys — the opposite of the
    claimed joined key and absent indexed keys. -/
theorem C1_image_join_counterexample :
    buildJsonRows jsonDocC1 = Except.ok [rowC1] ∧
    lookupA rowC1 "workitems-inputData-Image" = none ∧
    lookupA rowC1 "workitems-inputData-Image_1" = some (Json.str "a.png") ∧
    lookupA rowC1 "workitems-inputData-Image_2" = some (Json.str "b.png") :=
  ⟨rfl, rfl, rfl, rfl⟩

/-- C1 (amended): for the claim's input the record builder leaves
    `Image_2` and `Image_1` as separate keys, in encounter order, keeps
    `note`, and produces no joined `workitems-inputData-Image` key: the
    source's pattern `r"Image_\\d+"` matches a literal backslash followed
    by letter `d`s, never a digit, so `Image_<n>` keys are flattened as
    ordinary leaves. -/
theorem C1_image_join_amended :
    buildJsonRows jsonDocC1 = Except.ok [rowC1] ∧
    lookupA rowC1 "workitems-inputData-note" = some (Json.str "x") ∧
    imageKeyMatch "Image_1" = false ∧
    imageKeyMatch "Image_2" = false ∧
    imageKeyMatch "Image_\\dd" = true :=
  ⟨rfl, rfl, rfl, rfl, rfl⟩

/-- A successful upload-endpoint response carrying a `fileLink`. -/
def uploadOkResp : Response :=
  { status := 200,
    jsonBody := some (Json.obj [("fileLink",
      Json.str "https://storage.googleapis.com/rlhf-batch-uploads/out.csv")]),
    text := "", url := "https://labeling-m.turing.com/api/batches/upload/rlhf-metadata",
    method := "POST", headers := [] }

/-- A successful import-endpoint response with an empty body. -/
def importOkResp : Response :=
  { status := 200, jsonBody := none, text := "",
    url := "https://labeling-m.turing.com/api/batches/7/import-rlhf",
    method := "POST", headers := [] }

/-- A 2xx create-batch response whose `id` is the string `"abc"`. -/
def createRespStrId : Response :=
  { status := 200, jsonBody := some (Json.obj [("id", Json.str "abc")]),
    text := "id abc", url := "https://labeling-m.turing.com/api/batches",
    method := "POST", headers := [] }

def envStrId : PipelineEnv :=
  { uploadResp := uploadOkResp, createResp := createRespStrId, importResp := importOkResp }

/-- C8 counterexample: a 2xx registration response whose `id` is the
    non-integer `"abc"` makes the step SUCCEED (the value is returned
    unchecked) and the pipeline run completes with ok = true, import
    included — the claim says such a response must fail the step and move
    the run to Failed. -/
theorem C8_batch_id_counterexample :
    (200 ≤ createRespStrId.status ∧ createRespStrId.status < 300) ∧
    createRespStrId.jsonBody = some (Json.obj [("id", Json.str "abc")]) ∧
    create_batch_rlhf createRespStrId = Except.ok (Json.str "abc") ∧
    (upload_pipeline envStrId "output.csv").ok = true ∧
    (upload_pipeline envStrId "output.csv").importCalled = true :=
  ⟨by decide, rfl, rfl, rfl, rfl⟩

/-- C8 (amended): the registration step fails on a non-ok status and on a
    2xx body that is not a JSON mapping carrying `"id"`, and those
    failures put the run in Failed; but when `"id"` is present its value
    is returned without any integer check — a non-integer identifier does
    not fail the step. -/
theorem C8_batch_id_amended (resp : Response) :
    (¬ resp.ok → create_batch_rlhf resp =
      Except.error ("Create-batch step failed:\n" ++ format_http_error resp)) ∧
    (resp.ok → resp.jsonBody = none → create_batch_rlhf resp =
      Except.error ("Create-batch returned invalid JSON:\n" ++ format_http_error resp)) ∧
    (∀ fields, resp.ok → resp.jsonBody = some (Json.obj fields) →
      lookupA fields "id" = none → create_batch_rlhf resp =
        Except.error ("Create-batch returned invalid JSON:\n" ++ format_http_error resp)) ∧
    (∀ fields v, resp.ok → resp.jsonBody = some (Json.obj fields) →
      lookupA fields "id" = some v → create_batch_rlhf resp = Except.ok v) ∧
    (∀ env fn e, create_batch_rlhf (PipelineEnv.createResp env) = Except.error e →
      (upload_pipeline env fn).ok = false) := by
  refine ⟨?_, ?_, ?_, ?_, ?_⟩
  · intro h
    simp [create_batch_rlhf, h]
  · intro h hb
    simp [create_batch_rlhf, h, hb]
  · intro fields h hb hid
    simp [create_batch_rlhf, h, hb, hid]
  · intro fields v h hb hid
    simp [create_batch_rlhf, h, hb, hid]
  · intro env fn e he
    unfold upload_pipeline
    cases hu : upload_csv_bytes env.uploadResp with
    | error e2 => rfl
    | ok p => rw [he]

/-- A 500 create-batch response (registration failing after retries). -/
def resp500 : Response :=
  { status := 500, jsonBody := none, text := "Internal Server Error",
    url := "https://labeling-m.turing.com/api/batches",
    method := "POST", headers := [] }

/-- A run whose registration response is `resp500`. -/
def envCreateFail : PipelineEnv :=
  { uploadResp := uploadOkResp, createResp := resp500, importResp := importOkResp }

/-- C8 witness: the amended registration facts at concrete responses. -/
theorem C8_batch_id_witness :
    create_batch_rlhf createRespStrId = Except.ok (Json.str "abc") ∧
    create_batch_rlhf resp500 =
      Except.error ("Create-batch step failed:\n" ++ format_http_error resp500) ∧
    (upload_pipeline envCreateFail "f.csv").ok = false :=
  ⟨(C8_batch_id_amended createRespStrId).2.2.2.1 [("id", Json.str "abc")]
     (Json.str "abc") (by decide) rfl rfl,
   (C8_batch_id_amended resp500).1 (by decide),
   (C8_batch_id_amended resp500).2.2.2.2 envCreateFail "f.csv" _
     ((C8_batch_id_amended resp500).1 (by decide))⟩

/-- A 300 (non-2xx, but `resp.ok`) create-batch response carrying an id. -/
def createResp300 : Response :=
  { status := 300, jsonBody := some (Json.obj [("id", Json.num 1)]),
    text := "id 1", url := "https://labeling-m.turing.com/api/batches",
    method := "POST", headers := [] }

def env300 : PipelineEnv :=
  { uploadResp := uploadOkResp, createResp := createResp300, importResp := importOkResp }

/-- C2 counterexample: a run whose upload succeeds and whose registration
    response has the non-2xx status 300 (with an id body) is treated as a
    SUCCESS by the client (`requests` counts every status below 400 as ok):
    the run ends with ok = true and the import endpoint IS called —
    contradicting the claim for "non-2xx" registration responses. -/
theorem C2_register_failure_counterexample :
    upload_csv_bytes env300.uploadResp =
      Except.ok ("https://storage.googleapis.com/rlhf-batch-uploads/out.csv", "out.csv") ∧
    ¬(200 ≤ env300.createResp.status ∧ env300.createResp.status < 300) ∧
    (upload_pipeline env300 "output.csv").ok = true ∧
    (upload_pipeline env300 "output.csv").importCalled = true :=
  ⟨rfl, by decide, rfl, rfl⟩

/-- C2 (amended): when the upload succeeds and the registration response
    surfaced after the transport's retries has an error status (400 or
    above — the statuses the client treats as failure), the run ends with
    ok = false, its message is the create-batch diagnostic, and the import
    endpoint is never called. -/
theorem C2_register_failure_amended (env : PipelineEnv) (fn link objName : String)
    (hup : upload_csv_bytes env.uploadResp = Except.ok (link, objName))
    (hst : 400 ≤ env.createResp.status) :
    (upload_pipeline env fn).ok = false ∧
    (upload_pipeline env fn).message =
      "❌ " ++ ("Create-batch step failed:\n" ++ format_http_error env.createResp) ∧
    (upload_pipeline env fn).importCalled = false := by
  have hok : env.createResp.ok = false := by
    unfold Response.ok
    simp only [decide_eq_false_iff_not]
    omega
  have hcreate : create_batch_rlhf env.createResp =
      Except.error ("Create-batch step failed:\n" ++ format_http_error env.createResp) := by
    simp [create_batch_rlhf, hok]
  unfold upload_pipeline
  rw [hup, hcreate]
  exact ⟨rfl, rfl, rfl⟩

/-- C2 witness: the amended statement at a concrete run whose
    registration returns HTTP 500 on every attempt. -/
theorem C2_register_failure_witness :
    (upload_pipeline envCreateFail "f.csv").ok = false ∧
    (upload_pipeline envCreateFail "f.csv").message =
      "❌ " ++ ("Create-batch step failed:\n" ++ format_http_error envCreateFail.createResp) ∧
    (upload_pipeline envCreateFail "f.csv").importCalled = false :=
  C2_register_failure_amended envCreateFail "f.csv"
    "https://storage.googleapis.com/rlhf-batch-uploads/out.csv" "out.csv" rfl (by decide)

/-- C5 counterexample: for the work item
    `{"inputData": {"meta": {"a": "x"}}}` (no indexed-image keys) the row
    builder emits the key `workitems-inputData-a`, dropping the
    intermediate key `meta`, while the depth-first leaf path of the
    mapping is `workitems-inputData-meta-a` — the produced key set is not
    the DFS leaf-path set. -/
theorem C5_flatten_dfs_counterexample :
    wiRow [("inputData", Json.obj [("meta", Json.obj [("a", Json.str "x")])])] =
      Except.ok [("workitems-inputData-a", Json.str "x")] ∧
    dfsLeaves "workitems" [("inputData", Json.obj [("meta", Json.obj [("a", Json.str "x")])])] =
      [("workitems-inputData-meta-a", Json.str "x")] := by
  constructor
  · simp only [wiRow, lookupA, wiGo, inputDataGo, imageKeyMatch, flatten_leaves, flat_go,
      updateA, insertA, strOnly]
    rfl
  · rw [dfsLeaves_cons_obj, dfsLeaves_cons_obj,
      dfsLeaves_cons_leaf _ _ (Json.str "x") rfl, dfsLeaves_nil, dfsLeaves_nil]
    simp [dfsLeaves_nil]

/-- C5 (amended): for every work item whose `inputData` value (if any) is
    not itself a mapping and whose `workItemId` value (if any) is not a
    mapping, the row builder produces exactly the depth-first leaf-path
    key set of the work item, every produced entry is one of the DFS
    (path, leaf) pairs, and every produced value is a non-mapping leaf.
    (Nested mappings directly under `inputData` are instead flattened
    with the fixed prefix `workitems-inputData`, dropping their own key,
    and a mapping-valued `workItemId` is copied verbatim — the claim
    fails there, per the counterexample.) -/
theorem C5_flatten_dfs_amended (wi : List (String × Json))
    (h1 : ∀ v, ("inputData", v) ∈ wi → v.isObj = false)
    (h2 : ∀ v, ("workItemId", v) ∈ wi → v.isObj = false) :
    ∃ row, wiRow wi = Except.ok row ∧
      (∀ k, (∃ v, (k, v) ∈ row) ↔ (∃ v, (k, v) ∈ dfsLeaves "workitems" wi)) ∧
      (∀ k v, (k, v) ∈ row → (k, v) ∈ dfsLeaves "workitems" wi) ∧
      (∀ k v, (k, v) ∈ row → v.isObj = false) := by
  rcases hwid : lookupA wi "workItemId" with _ | w
  · have hwr : wiRow wi = wiGo wi [] := by
      unfold wiRow
      rw [hwid]
    obtain ⟨row, hok, hiff, hsub, hobj⟩ := wiRow_core wi [] h1 h2 NodupKeys_nil (by
      intro k
      rw [hwid]
      show none = if k = "workitems-workItemId" then none else none
      split <;> rfl)
    exact ⟨row, by rw [hwr]; exact hok, hiff, hsub, hobj⟩
  · have hwr : wiRow wi = wiGo wi [("workitems-workItemId", w)] := by
      unfold wiRow
      rw [hwid]
    have hnd0 : NodupKeys [("workitems-workItemId", w)] := by
      simp [NodupKeys, keysA]
    obtain ⟨row, hok, hiff, hsub, hobj⟩ := wiRow_core wi [("workitems-workItemId", w)] h1 h2 hnd0 (by
      intro k
      by_cases hk : k = "workitems-workItemId"
      · subst hk
        simp [lookupA, hwid]
      · have hne : ¬("workitems-workItemId" = k) := fun he => hk he.symm
        simp [lookupA, hne, hk])
    exact ⟨row, by rw [hwr]; exact hok, hiff, hsub, hobj⟩

/-- C5 witness: the amended statement at a concrete plain work item. -/
theorem C5_flatten_dfs_witness :
    ∃ row, wiRow [("a", Json.str "1"), ("workItemId", Json.num 7)] = Except.ok row ∧
      (∀ k v, (k, v) ∈ row → v.isObj = false) := by
  obtain ⟨row, hok, _, _, hobj⟩ := C5_flatten_dfs_amended
    [("a", Json.str "1"), ("workItemId", Json.num 7)]
    (by intro v hv; simp at hv)
    (by intro v hv; simp at hv; rw [hv]; rfl)
  exact ⟨row, hok, hobj⟩

theorem dfColumns_fold_mono (rows : List (List (String × Json))) :
    ∀ (cols : List String) (k : String), k ∈ cols →
      k ∈ rows.foldl
        (fun cols r => cols ++ (keysA r).filter (fun k => !cols.contains k)) cols := by
  induction rows with
  | nil =>
      intro cols k h
      simpa using h
  | cons r rs ih =>
      intro cols k h
      exact ih _ k (List.mem_append_left _ h)

theorem mem_dfColumns_of_mem_row : ∀ (rows : List (List (String × Json)))
    (cols : List String) (r : List (String × Json)), r ∈ rows →
    ∀ (k : String), k ∈ keysA r →
    k ∈ rows.foldl
      (fun cols r => cols ++ (keysA r).filter (fun k => !cols.contains k)) cols := by
  intro rows
  induction rows with
  | nil =>
      intro cols r hr
      simp at hr
  | cons r0 rs ih =>
      intro cols r hr k hk
      rcases List.mem_cons.mp hr with he | hm
      · subst he
        by_cases hc : k ∈ cols
        · exact dfColumns_fold_mono rs _ k (List.mem_append_left _ hc)
        · have hflt : k ∈ (keysA r).filter (fun k => !cols.contains k) := by
            rw [List.mem_filter]
            refine ⟨hk, ?_⟩
            simp [hc]
          exact dfColumns_fold_mono rs _ k (List.mem_append_right _ hflt)
      · exact ih _ r hm k hk

/-- The rows of the C4 document. -/
def jsonDocC4 : Json :=
  Json.obj [("workitems", Json.arr
    [Json.obj [("a", Json.str "x"), ("b", Json.str "y")],
     Json.obj [("a", Json.str "z")]])]

def rowC4a : List (String × Json) :=
  [("workitems-a", Json.str "x"), ("workitems-b", Json.str "y")]

def rowC4b : List (String × Json) :=
  [("workitems-a", Json.str "z")]

/-- C4 counterexample: within one document, a record lacking a path does
    NOT carry an empty value for that key — the key is absent from the
    record, and the dataframe fills the corresponding cell with the NaN
    missing-value marker (a null), not an empty value. -/
theorem C4_consistent_keys_counterexample :
    buildJsonRows jsonDocC4 = Except.ok [rowC4a, rowC4b] ∧
    lookupA rowC4b "workitems-b" = none ∧
    "workitems-b" ∈ dfColumns [rowC4a, rowC4b] ∧
    dfCell rowC4b "workitems-b" = Cell.nan := by
  refine ⟨rfl, rfl, ?_, rfl⟩
  show "workitems-b" ∈ dfColumns [rowC4a, rowC4b]
  have : dfColumns [rowC4a, rowC4b] = ["workitems-a", "workitems-b"] := rfl
  rw [this]
  simp

/-- C4 (amended): within one document, the dataframe presents all records
    over the unioned column set — every key of any record is a column —
    and a record in which some path is absent carries the NaN
    missing-value marker in that column (the key set is unioned at the
    table level, but the fill value is null, not an empty value). -/
theorem C4_consistent_keys_amended (doc : Json) (rows : List (List (String × Json)))
    (_h : buildJsonRows doc = Except.ok rows) :
    (∀ r, r ∈ rows → ∀ k v, (k, v) ∈ r → k ∈ dfColumns rows) ∧
    (∀ r, r ∈ rows → ∀ c, lookupA r c = none → dfCell r c = Cell.nan) ∧
    (∀ r, r ∈ rows → ∀ c v, lookupA r c = some v → dfCell r c = Cell.val v) := by
  refine ⟨?_, ?_, ?_⟩
  · intro r hr k v hkv
    exact mem_dfColumns_of_mem_row rows [] r hr k (mem_keysA_of_mem hkv)
  · intro r _ c hc
    unfold dfCell
    rw [hc]
  · intro r _ c v hc
    unfold dfCell
    rw [hc]

/-- C4 witness: the amended dataframe facts at the concrete document. -/
theorem C4_consistent_keys_witness :
    "workitems-b" ∈ dfColumns [rowC4a, rowC4b] ∧
    dfCell rowC4b "workitems-b" = Cell.nan :=
  ⟨(C4_consistent_keys_amended jsonDocC4 [rowC4a, rowC4b] rfl).1 rowC4a (by simp)
     "workitems-b" (Json.str "y") (by simp [rowC4a]),
   (C4_consistent_keys_amended jsonDocC4 [rowC4a, rowC4b] rfl).2.1 rowC4b (by simp)
     "workitems-b" rfl⟩

theorem retryGo_spec (m : String) (sv : Nat → AttemptOutcome) :
    ∀ (fuel i : Nat),
      (i + 1 ≤ (retryGo m sv fuel i).1 ∧ (retryGo m sv fuel i).1 ≤ i + fuel + 1) ∧
      (retryGo m sv fuel i).2.2 = sv ((retryGo m sv fuel i).1 - 1) ∧
      (∀ k, i ≤ k → k + 1 < (retryGo m sv fuel i).1 →
        shouldRetry m (fuel + i - k) (sv k) = true) ∧
      (shouldRetry m (fuel + i + 1 - (retryGo m sv fuel i).1)
          (sv ((retryGo m sv fuel i).1 - 1)) = true →
        (retryGo m sv fuel i).1 = i + fuel + 1) ∧
      (retryGo m sv fuel i).2.1 =
        (List.range ((retryGo m sv fuel i).1 - 1 - i)).map
          (fun j => sleepFor (sv (i + j)) (i + j + 1)) := by
  intro fuel
  induction fuel with
  | zero =>
      intro i
      have hstep : retryGo m sv 0 i = (i + 1, [], sv i) := rfl
      rw [hstep]
      refine ⟨⟨le_refl _, by omega⟩, by simp, ?_, ?_, by simp⟩
      · intro k hik hk1
        omega
      · intro _
        omega
  | succ f ih =>
      intro i
      by_cases hr : shouldRetry m (f + 1) (sv i) = true
      · have hstep : retryGo m sv (f + 1) i =
            ((retryGo m sv f (i + 1)).1,
             sleepFor (sv i) (i + 1) :: (retryGo m sv f (i + 1)).2.1,
             (retryGo m sv f (i + 1)).2.2) := by
          simp [retryGo, hr]
        obtain ⟨⟨hlo, hhi⟩, hout, hmid, hexh, hsl⟩ := ih (i + 1)
        rw [hstep]
        refine ⟨⟨by omega, by omega⟩, hout, ?_, ?_, ?_⟩
        · intro k hik hk1
          by_cases hki : k = i
          · rw [hki]
            have ha : f + 1 + i - i = f + 1 := by omega
            rw [ha]
            exact hr
          · have ha : f + 1 + i - k = f + (i + 1) - k := by omega
            rw [ha]
            exact hmid k (by omega) hk1
        · intro hsr
          have ha : f + 1 + i + 1 - (retryGo m sv f (i + 1)).1 =
              f + (i + 1) + 1 - (retryGo m sv f (i + 1)).1 := by omega
          rw [ha] at hsr
          have := hexh hsr
          omega
        · rw [hsl]
          have hn : (retryGo m sv f (i + 1)).1 - 1 - i =
              ((retryGo m sv f (i + 1)).1 - 1 - (i + 1)) + 1 := by omega
          rw [hn, List.range_succ_eq_map, List.map_cons, List.map_map]
          have hfun : ((fun j => sleepFor (sv (i + j)) (i + j + 1)) ∘ Nat.succ) =
              (fun j => sleepFor (sv (i + 1 + j)) (i + 1 + j + 1)) := by
            funext j
            show sleepFor (sv (i + (j + 1))) (i + (j + 1) + 1) =
              sleepFor (sv (i + 1 + j)) (i + 1 + j + 1)
            have h1 : i + (j + 1) = i + 1 + j := by omega
            rw [h1]
          rw [hfun]
          rfl
      · have hstep : retryGo m sv (f + 1) i = (i + 1, [], sv i) := by
          simp [retryGo, hr]
        rw [hstep]
        refine ⟨⟨le_refl _, by omega⟩, by simp, ?_, ?_, by simp⟩
        · intro k hik hk1
          omega
        · intro hsr
          rw [Nat.add_sub_cancel] at hsr
          have ha : f + 1 + i + 1 - (i + 1) = f + 1 := by omega
          rw [ha] at hsr
          exact absurd hsr hr

/-- The C6 counterexample server: the first attempt yields a 413 response
    carrying `Retry-After: 7`, every later attempt a plain 200. -/
def server413 : Nat → AttemptOutcome := fun n =>
  if n = 0 then AttemptOutcome.response ⟨413, some 7⟩
  else AttemptOutcome.response ⟨200, none⟩

/-- C6 counterexample: a 413 response — a 4xx status outside the
    forcelist — carrying a `Retry-After` header IS retried by the session
    (urllib3 `is_retry` with the default `respect_retry_after_header=True`
    and 413 in `RETRY_AFTER_STATUS_CODES`), and the session sleeps the
    header value rather than the backoff: 2 attempts, one 7-second sleep,
    final status 200 — refuting the claim that any other 4xx status is
    never retried and is returned to the caller immediately. -/
theorem C6_transport_retry_counterexample :
    (413 : Nat) ∉ STATUS_FORCELIST ∧ 400 ≤ 413 ∧ 413 < 500 ∧
    sessionRun "POST" server413 =
      (2, [((7 : Nat) : Rat)], AttemptOutcome.response ⟨200, none⟩) := by
  refine ⟨by decide, by decide, by decide, ?_⟩
  rfl

/-- C6 (amended): for an allowed method, the session makes at most
    `total+1 = 5` attempts and surfaces the last outcome; every retried
    attempt satisfied `shouldRetry` at its remaining budget, and a
    retryable final outcome means the budget was exhausted. A response is
    retried (with budget left) iff its status is in the forcelist
    429/500/502/503/504 OR it carries a `Retry-After` header and its
    status is in 413/429/503; connect/read errors are retried; a 4xx
    outside the forcelist WITHOUT a `Retry-After` header is never retried,
    and such a first response is surfaced immediately. Each sleep is
    `sleepFor` of the triggering outcome: the positive `Retry-After` value
    when present, else the exponential backoff, which doubles from the
    second retry on. -/
theorem C6_transport_retry_amended (method : String) (server : Nat → AttemptOutcome)
    (hm : method ∈ ALLOWED_METHODS) :
    (1 ≤ (sessionRun method server).1 ∧
      (sessionRun method server).1 ≤ DEFAULT_TOTAL_RETRIES + 1) ∧
    (sessionRun method server).2.2 = server ((sessionRun method server).1 - 1) ∧
    (∀ k, k + 1 < (sessionRun method server).1 →
      shouldRetry method (DEFAULT_TOTAL_RETRIES - k) (server k) = true) ∧
    (shouldRetry method (DEFAULT_TOTAL_RETRIES + 1 - (sessionRun method server).1)
        (server ((sessionRun method server).1 - 1)) = true →
      (sessionRun method server).1 = DEFAULT_TOTAL_RETRIES + 1) ∧
    (∀ (r : TResponse) (total : Nat), 0 < total →
      (shouldRetry method total (AttemptOutcome.response r) = true ↔
        (r.status ∈ STATUS_FORCELIST ∨
          (r.retryAfter.isSome = true ∧ r.status ∈ RETRY_AFTER_STATUS_CODES)))) ∧
    (∀ total, shouldRetry method total AttemptOutcome.connectError = true ∧
      shouldRetry method total AttemptOutcome.readError = true) ∧
    (∀ (r : TResponse) (total : Nat), 400 ≤ r.status → r.status < 500 →
      r.status ∉ STATUS_FORCELIST → r.retryAfter = none →
      shouldRetry method total (AttemptOutcome.response r) = false) ∧
    (∀ (r : TResponse), server 0 = AttemptOutcome.response r →
      r.status ∉ STATUS_FORCELIST →
      (r.retryAfter.isSome = true → r.status ∉ RETRY_AFTER_STATUS_CODES) →
      sessionRun method server = (1, [], server 0)) ∧
    ((sessionRun method server).2.1 =
      (List.range ((sessionRun method server).1 - 1)).map
        (fun j => sleepFor (server j) (j + 1))) ∧
    (∀ (r : TResponse) (c t : Nat), r.retryAfter = some t → 0 < t →
      sleepFor (AttemptOutcome.response r) c = (t : Rat)) ∧
    (∀ (r : TResponse) (c : Nat), r.retryAfter = none →
      sleepFor (AttemptOutcome.response r) c = get_backoff_time c) ∧
    (∀ c, 2 ≤ c → c ≤ 6 → get_backoff_time (c + 1) = 2 * get_backoff_time c) := by
  have hmc : ALLOWED_METHODS.contains method = true := by simpa using hm
  obtain ⟨⟨hlo, hhi⟩, hout, hmid, hexh, hsl⟩ :=
    retryGo_spec method server DEFAULT_TOTAL_RETRIES 0
  have hsess : sessionRun method server = retryGo method server DEFAULT_TOTAL_RETRIES 0 := rfl
  refine ⟨⟨?_, ?_⟩, ?_, ?_, ?_, ?_, ?_, ?_, ?_, ?_, ?_, ?_, ?_⟩
  · rw [hsess]
    omega
  · rw [hsess]
    omega
  · rw [hsess]
    exact hout
  · rw [hsess]
    intro k hk
    exact hmid k (by omega) hk
  · rw [hsess]
    intro h
    have := hexh h
    omega
  · intro r total htot
    have ht : (total ≠ 0) = True := by simp [Nat.pos_iff_ne_zero.mp htot]
    by_cases hf : r.status ∈ STATUS_FORCELIST
    · simp [shouldRetry, is_retry, hmc, hf]
      exact hm
    · simp [shouldRetry, is_retry, hmc, hf, respect_retry_after_header, ht]
      intro _ _
      exact hm
  · intro total
    refine ⟨rfl, ?_⟩
    show ALLOWED_METHODS.contains method = true
    exact hmc
  · intro r total h4 h5 hnot hra
    simp [shouldRetry, is_retry, hmc, hnot, hra]
  · intro r h0 hnot hra
    have hns : shouldRetry method 4 (server 0) = false := by
      rw [h0]
      rcases hro : r.retryAfter with _ | t
      · simp [shouldRetry, is_retry, hmc, hnot, hro]
      · have hna : r.status ∉ RETRY_AFTER_STATUS_CODES := hra (by simp [hro])
        simp [shouldRetry, is_retry, hmc, hnot, hro, hna]
    show retryGo method server DEFAULT_TOTAL_RETRIES 0 = (1, [], server 0)
    rw [show DEFAULT_TOTAL_RETRIES = 3 + 1 from rfl]
    simp [retryGo, hns]
  · rw [hsess, hsl]
    simp
  · intro r c t hra ht
    simp [sleepFor, hra, ht]
  · intro r c hra
    simp [sleepFor, hra]
  · intro c h2 h6
    have hcases : c = 2 ∨ c = 3 ∨ c = 4 ∨ c = 5 ∨ c = 6 := by omega
    rcases hcases with rfl | rfl | rfl | rfl | rfl <;>
      norm_num [get_backoff_time, BACKOFF_FACTOR, min_def]

def server500 : Nat → AttemptOutcome := fun _ => AttemptOutcome.response ⟨500, none⟩

def server404 : Nat → AttemptOutcome := fun _ => AttemptOutcome.response ⟨404, none⟩

/-- C6 witness: the amended retry facts at concrete POST servers. -/
theorem C6_transport_retry_amended_witness :
    (1 ≤ (sessionRun "POST" server500).1 ∧
      (sessionRun "POST" server500).1 ≤ DEFAULT_TOTAL_RETRIES + 1) ∧
    (shouldRetry "POST" 4 (AttemptOutcome.response ⟨500, none⟩) = true ↔
      ((500 : Nat) ∈ STATUS_FORCELIST ∨
        ((none : Option Nat).isSome = true ∧ (500 : Nat) ∈ RETRY_AFTER_STATUS_CODES))) ∧
    shouldRetry "POST" 4 (AttemptOutcome.response ⟨404, none⟩) = false ∧
    sessionRun "POST" server404 = (1, [], server404 0) ∧
    sleepFor (AttemptOutcome.response ⟨429, some 30⟩) 1 = ((30 : Nat) : Rat) ∧
    sleepFor (AttemptOutcome.response ⟨500, none⟩) 2 = get_backoff_time 2 ∧
    get_backoff_time 3 = 2 * get_backoff_time 2 := by
  have h500 := C6_transport_retry_amended "POST" server500 (by decide)
  have h404 := C6_transport_retry_amended "POST" server404 (by decide)
  exact ⟨h500.1,
    h500.2.2.2.2.1 ⟨500, none⟩ 4 (by decide),
    h404.2.2.2.2.2.2.1 ⟨404, none⟩ 4 (by decide) (by decide) (by decide) rfl,
    h404.2.2.2.2.2.2.2.1 ⟨404, none⟩ rfl (by decide) (fun hx => absurd hx (by decide)),
    h500.2.2.2.2.2.2.2.2.2.1 ⟨429, some 30⟩ 1 30 rfl (by decide),
    h500.2.2.2.2.2.2.2.2.2.2.1 ⟨500, none⟩ 2 rfl,
    h500.2.2.2.2.2.2.2.2.2.2.2 2 (by decide) (by decide)⟩

theorem HasImage_nil (anc : List String) (nm fid : String) :
    ¬ HasImage [] anc nm fid := by
  intro h
  cases h with
  | here hm _ => simp at hm
  | deeper hm _ => simp at hm

theorem folder_not_image : strStartsWith FOLDER_MIME "image/" = false := by decide

theorem HasImage_cons (e : DriveEntry) (rest : List DriveEntry) (anc : List String)
    (nm fid : String) :
    HasImage (e :: rest) anc nm fid ↔
      (HasImage rest anc nm fid ∨
       (∃ mime ch, e = DriveEntry.mk fid nm mime ch ∧
          strStartsWith mime "image/" = true ∧ anc = []) ∨
       (∃ gid gname ch anc2, e = DriveEntry.mk gid gname FOLDER_MIME ch ∧
          anc = gname :: anc2 ∧ HasImage ch anc2 nm fid)) := by
  constructor
  · intro h
    cases h with
    | here hm himg =>
        rcases List.mem_cons.mp hm with he | hm2
        · exact Or.inr (Or.inl ⟨_, _, he.symm, himg, rfl⟩)
        · exact Or.inl (HasImage.here hm2 himg)
    | deeper hm hch =>
        rcases List.mem_cons.mp hm with he | hm2
        · exact Or.inr (Or.inr ⟨_, _, _, _, he.symm, rfl, hch⟩)
        · exact Or.inl (HasImage.deeper hm2 hch)
  · intro h
    rcases h with h | ⟨mime, ch, he, himg, ha⟩ | ⟨gid, gname, ch, anc2, he, ha, hch⟩
    · cases h with
      | here hm himg => exact HasImage.here (List.mem_cons_of_mem _ hm) himg
      | deeper hm hch => exact HasImage.deeper (List.mem_cons_of_mem _ hm) hch
    · subst he
      subst ha
      exact HasImage.here (List.mem_cons_self _ _) himg
    · subst he
      subst ha
      exact HasImage.deeper (List.mem_cons_self _ _) hch

/-- Soundness and completeness of the crawl: a record is produced exactly
    for the images reachable in the tree, with the ancestor folder names
    accumulated onto the starting path. -/
theorem crawl_mem : ∀ (entries : List DriveEntry) (path : List String)
    (results : List ImageRec) (r : ImageRec),
    r ∈ list_drive_images_recursive entries path results ↔
      (r ∈ results ∨ ∃ anc nm fid, HasImage entries anc nm fid ∧
        r = ⟨nm, driveLink fid, path ++ anc ++ [nm]⟩) := by
  intro entries path results
  induction entries, path, results using list_drive_images_recursive.induct with
  | case1 path results =>
      intro r
      rw [list_drive_images_recursive.eq_1]
      constructor
      · intro h
        exact Or.inl h
      · rintro (h | ⟨anc, nm, fid, hhi, _⟩)
        · exact h
        · exact absurd hhi (HasImage_nil _ _ _)
  | case2 fid fname children rest path results ih_inner ih_outer =>
      intro r
      rw [list_drive_images_recursive.eq_2, if_pos rfl, ih_outer r]
      constructor
      · rintro (hin | ⟨anc, nm, fid2, hhi, hre⟩)
        · rcases (ih_inner r).mp hin with hres | ⟨anc, nm, fid2, hhi, hre⟩
          · exact Or.inl hres
          · refine Or.inr ⟨fname :: anc, nm, fid2, ?_, ?_⟩
            · exact HasImage.deeper (List.mem_cons_self _ _) hhi
            · rw [hre]
              simp
        · refine Or.inr ⟨anc, nm, fid2, ?_, hre⟩
          cases hhi with
          | here hm himg => exact HasImage.here (List.mem_cons_of_mem _ hm) himg
          | deeper hm hch => exact HasImage.deeper (List.mem_cons_of_mem _ hm) hch
      · rintro (hres | ⟨anc, nm, fid2, hhi, hre⟩)
        · exact Or.inl ((ih_inner r).mpr (Or.inl hres))
        · rcases (HasImage_cons _ _ _ _ _).mp hhi with hrest | ⟨mime, ch, he, himg, ha⟩ |
            ⟨gid, gname, ch, anc2, he, ha, hch⟩
          · exact Or.inr ⟨anc, nm, fid2, hrest, hre⟩
          · exfalso
            have hmime : mime = FOLDER_MIME := by
              have := congrArg (fun e => match e with
                | DriveEntry.mk _ _ m _ => m) he
              exact this.symm
            rw [hmime, folder_not_image] at himg
            exact Bool.false_ne_true himg
          · have hg : gname = fname ∧ ch = children := by
              have h1 := congrArg (fun e => match e with
                | DriveEntry.mk _ n _ _ => n) he
              have h2 := congrArg (fun e => match e with
                | DriveEntry.mk _ _ _ c => c) he
              exact ⟨h1.symm, h2.symm⟩
            refine Or.inl ((ih_inner r).mpr (Or.inr ⟨anc2, nm, fid2, ?_, ?_⟩))
            · rw [hg.2] at hch
              exact hch
            · rw [hre, ha, hg.1]
              simp
  | case3 fid fname mime children rest path results hnf hsw ih =>
      intro r
      rw [list_drive_images_recursive.eq_2, if_neg hnf, if_pos hsw, ih r]
      rw [List.mem_append]
      constructor
      · rintro ((hres | hrec) | ⟨anc, nm, fid2, hhi, hre⟩)
        · exact Or.inl hres
        · refine Or.inr ⟨[], fname, fid, ?_, ?_⟩
          · exact HasImage.here (List.mem_cons_self _ _) hsw
          · simp at hrec
            rw [hrec]
            simp
        · refine Or.inr ⟨anc, nm, fid2, ?_, hre⟩
          cases hhi with
          | here hm himg => exact HasImage.here (List.mem_cons_of_mem _ hm) himg
          | deeper hm hch => exact HasImage.deeper (List.mem_cons_of_mem _ hm) hch
      · rintro (hres | ⟨anc, nm, fid2, hhi, hre⟩)
        · exact Or.inl (Or.inl hres)
        · rcases (HasImage_cons _ _ _ _ _).mp hhi with hrest | ⟨mime2, ch, he, himg, ha⟩ |
            ⟨gid, gname, ch, anc2, he, ha, hch⟩
          · exact Or.inr ⟨anc, nm, fid2, hrest, hre⟩
          · refine Or.inl (Or.inr ?_)
            have hfid : fid = fid2 ∧ fname = nm := by
              have h1 := congrArg (fun e => match e with
                | DriveEntry.mk i _ _ _ => i) he
              have h2 := congrArg (fun e => match e with
                | DriveEntry.mk _ n _ _ => n) he
              exact ⟨h1, h2⟩
            rw [hre, ha]
            simp [hfid.1, hfid.2]
          · exfalso
            have hmime : mime = FOLDER_MIME := by
              have := congrArg (fun e => match e with
                | DriveEntry.mk _ _ m _ => m) he
              exact this
            exact hnf hmime
  | case4 fid fname mime children rest path results hnf hns ih =>
      intro r
      rw [list_drive_images_recursive.eq_2, if_neg hnf, if_neg hns, ih r]
      constructor
      · rintro (hres | ⟨anc, nm, fid2, hhi, hre⟩)
        · exact Or.inl hres
        · refine Or.inr ⟨anc, nm, fid2, ?_, hre⟩
          cases hhi with
          | here hm himg => exact HasImage.here (List.mem_cons_of_mem _ hm) himg
          | deeper hm hch => exact HasImage.deeper (List.mem_cons_of_mem _ hm) hch
      · rintro (hres | ⟨anc, nm, fid2, hhi, hre⟩)
        · exact Or.inl hres
        · rcases (HasImage_cons _ _ _ _ _).mp hhi with hrest | ⟨mime2, ch, he, himg, ha⟩ |
            ⟨gid, gname, ch, anc2, he, ha, hch⟩
          · exact Or.inr ⟨anc, nm, fid2, hrest, hre⟩
          · exfalso
            have hmime : mime = mime2 := by
              have := congrArg (fun e => match e with
                | DriveEntry.mk _ _ m _ => m) he
              exact this
            rw [← hmime] at himg
            rw [himg] at hns
            exact hns rfl
          · exfalso
            have hmime : mime = FOLDER_MIME := by
              have := congrArg (fun e => match e with
                | DriveEntry.mk _ _ m _ => m) he
              exact this
            exact hnf hmime

/-- C3: every record the crawler produces has `full_path` equal to its
    ancestor folder names followed by its own name (so its length is the
    Leaf's nesting depth below the scan root); the derived table has
    exactly max-depth many `level_i` columns; and every record has a
    string value for every `level_i` below the maximum — the path
    component when it exists and the empty string when the path is
    shorter. -/
theorem C3_crawler_paths_levels (entries : List DriveEntry) (r : ImageRec)
    (hr : r ∈ list_drive_images_recursive entries [] [])
    (rs : List ImageRec) (_hrs : rs ≠ []) (r2 : ImageRec) (_hr2 : r2 ∈ rs)
    (i : Nat) (_hi : i < maxDepth rs) :
    (∃ anc fid, HasImage entries anc r.image_name fid ∧
      r.full_path = anc ++ [r.image_name] ∧
      r.full_path.length = anc.length + 1) ∧
    (levelCols rs).length = maxDepth rs ∧
    (r2.full_path.length ≤ i → levelValue r2 i = "") ∧
    (∀ h2 : i < r2.full_path.length, levelValue r2 i = r2.full_path.get ⟨i, h2⟩) := by
  refine ⟨?_, ?_, ?_, ?_⟩
  · rcases (crawl_mem entries [] [] r).mp hr with habs | ⟨anc, nm, fid, hhi, hre⟩
    · simp at habs
    · have hnm : r.image_name = nm := by rw [hre]
      refine ⟨anc, fid, ?_, ?_, ?_⟩
      · rw [hnm]
        exact hhi
      · rw [hre]
        simp
      · rw [hre]
        simp
  · unfold levelCols
    simp
  · intro hle
    unfold levelValue
    rw [if_neg (by omega)]
  · intro h2
    unfold levelValue
    rw [if_pos h2]
    exact List.getD_eq_get _ _ h2

/-- The witness tree: one folder containing one image. -/
def treeW : List DriveEntry :=
  [DriveEntry.mk "fid1" "holiday" FOLDER_MIME
    [DriveEntry.mk "iid1" "pic.png" "image/png" []]]

def recW : ImageRec :=
  { image_name := "pic.png", image_link := driveLink "iid1",
    full_path := ["holiday", "pic.png"] }

/-- C3 witness: the crawler facts at the concrete one-folder tree. -/
theorem C3_crawler_paths_levels_witness :
    (∃ anc fid, HasImage treeW anc recW.image_name fid ∧
      recW.full_path = anc ++ [recW.image_name] ∧
      recW.full_path.length = anc.length + 1) ∧
    (levelCols [recW]).length = maxDepth [recW] ∧
    (recW.full_path.length ≤ 0 → levelValue recW 0 = "") ∧
    (∀ h2 : 0 < recW.full_path.length, levelValue recW 0 = recW.full_path.get ⟨0, h2⟩) := by
  have heval : list_drive_images_recursive treeW [] [] = [recW] := by
    rw [show treeW = [DriveEntry.mk "fid1" "holiday" FOLDER_MIME
      [DriveEntry.mk "iid1" "pic.png" "image/png" []]] from rfl]
    rw [list_drive_images_recursive.eq_2, if_pos rfl]
    rw [list_drive_images_recursive.eq_2, if_neg (by decide), if_pos (by decide)]
    rw [list_drive_images_recursive.eq_1, list_drive_images_recursive.eq_1]
    rfl
  exact C3_crawler_paths_levels treeW recW (by rw [heval]; simp) [recW] (by simp) recW
    (by simp) 0 (by decide)

-- ──────────────────────────────────────────────────────────────────────
-- C9: orchestrator lemmas
-- ──────────────────────────────────────────────────────────────────────

/-- The log fold of test.py started from an arbitrary accumulated log. -/
def logFrom (env : String → FileResult) (log : List (String × LogEntry))
    (files : List String) : List (String × LogEntry) :=
  files.foldl (fun l f => insertA l (splitextRoot f) (processFile env f)) log

theorem logFrom_append (env : String → FileResult) (log : List (String × LogEntry))
    (fs : List String) (f : String) :
    logFrom env log (fs ++ [f]) =
      insertA (logFrom env log fs) (splitextRoot f) (processFile env f) := by
  simp [logFrom, List.foldl_append]

/-- The snapshot list `mainGo` persists: one snapshot per file, the k-th
    being the log after the first k+1 files. -/
theorem mainGo_fst (env : String → FileResult) (files : List String) :
    ∀ (log : List (String × LogEntry)) (snaps : List (List (String × LogEntry))),
    (mainGo env files log snaps).1 =
      snaps.reverse ++ (List.range files.length).map
        (fun k => logFrom env log (files.take (k + 1))) := by
  induction files with
  | nil =>
      intro log snaps
      simp [mainGo]
  | cons f rest ih =>
      intro log snaps
      rw [show mainGo env (f :: rest) log snaps =
            mainGo env rest (insertA log (splitextRoot f) (processFile env f))
              (insertA log (splitextRoot f) (processFile env f) :: snaps) from rfl]
      rw [ih]
      rw [List.length_cons, List.range_succ_eq_map, List.map_cons, List.map_map]
      rw [List.reverse_cons, List.append_assoc]
      rfl

/-- The final log `mainGo` returns is the plain fold over the files. -/
theorem mainGo_snd (env : String → FileResult) (files : List String) :
    ∀ (log : List (String × LogEntry)) (snaps : List (List (String × LogEntry))),
    (mainGo env files log snaps).2 = logFrom env log files := by
  induction files with
  | nil =>
      intro log snaps
      rfl
  | cons f rest ih =>
      intro log snaps
      exact ih _ _

/-- The final value under a stem is the outcome of the LAST processed file
    with that stem (first match in the reversed processing order). -/
theorem lookupA_logFrom (env : String → FileResult) (files : List String) :
    ∀ (log : List (String × LogEntry)) (s : String),
    lookupA (logFrom env log files) s =
      match files.reverse.find? (fun f => splitextRoot f = s) with
      | some f => some (processFile env f)
      | none => lookupA log s := by
  induction files using List.reverseRecOn with
  | nil =>
      intro log s
      rfl
  | append_singleton fs f ih =>
      intro log s
      rw [logFrom_append, lookupA_insertA, ih]
      rw [List.reverse_append, List.reverse_singleton, List.singleton_append,
        List.find?_cons]
      by_cases hf : splitextRoot f = s
      · simp [hf]
      · simp [hf]

theorem mem_keysA_insertA {α : Type} (m : List (String × α)) (key : String) (v : α)
    (s : String) : s ∈ keysA (insertA m key v) ↔ s ∈ keysA m ∨ s = key := by
  rcases ho : lookupA m key with _ | w
  · rw [keysA_insertA_of_absent m key v ho]
    simp
  · rw [keysA_insertA_of_present m key v w ho]
    have hkey : key ∈ keysA m := by
      by_contra hk
      rw [(lookupA_eq_none_iff m key).mpr hk] at ho
      exact Option.noConfusion ho
    constructor
    · exact Or.inl
    · rintro (h | rfl)
      · exact h
      · exact hkey

/-- The fold keeps keys dict-shaped and its key set is exactly the starting
    keys together with the stems of the processed files. -/
theorem keysA_logFrom (env : String → FileResult) (files : List String) :
    ∀ (log : List (String × LogEntry)), NodupKeys log →
      NodupKeys (logFrom env log files) ∧
      (∀ s, s ∈ keysA (logFrom env log files) ↔
        s ∈ keysA log ∨ s ∈ files.map splitextRoot) := by
  induction files with
  | nil =>
      intro log h
      exact ⟨h, fun s => by simp [logFrom]⟩
  | cons f rest ih =>
      intro log h
      obtain ⟨h1, h2⟩ := ih (insertA log (splitextRoot f) (processFile env f))
        (NodupKeys_insertA _ _ _ h)
      refine ⟨h1, fun s => ?_⟩
      rw [show logFrom env log (f :: rest) =
            logFrom env (insertA log (splitextRoot f) (processFile env f)) rest from rfl]
      rw [h2 s, mem_keysA_insertA]
      simp [or_assoc, or_comm, or_left_comm]

/-- The final log has exactly one entry per distinct filename stem. -/
theorem logOf_length (env : String → FileResult) (files : List String) :
    (logOf env files).length = (files.map splitextRoot).toFinset.card := by
  obtain ⟨h1, h2⟩ := keysA_logFrom env files [] (by simp [NodupKeys, keysA])
  have hl : logOf env files = logFrom env [] files := rfl
  have hkeys : (keysA (logOf env files)).toFinset = (files.map splitextRoot).toFinset := by
    ext s
    rw [List.mem_toFinset, List.mem_toFinset, hl, h2 s]
    simp [keysA]
  have hnd : (keysA (logOf env files)).Nodup := by
    rw [hl]
    exact h1
  calc (logOf env files).length
      = (keysA (logOf env files)).length := by simp [keysA]
    _ = (keysA (logOf env files)).dedup.length := by rw [hnd.dedup]
    _ = (keysA (logOf env files)).toFinset.card := (List.card_toFinset _).symm
    _ = (files.map splitextRoot).toFinset.card := by rw [hkeys]

/-- Per-file outcomes for the C9 counterexample: `a.csv` imports as batch 7,
    everything else fails with an HTTP 500 before a batch is created. -/
def env9 : String → FileResult := fun f =>
  if f = "a.csv" then FileResult.imported 7 else FileResult.failedBeforeCreate "HTTP 500"

/-- C9 counterexample: with the directory listing ["a.CSV", "a.csv"] the
    orchestrator attempts two files (N = 2) but the final report has a
    single entry — both filenames share the stem "a", so the second file's
    log entry overwrites the first and the first file's failure record is
    lost from the report. -/
theorem C9_orchestrator_counterexample :
    (csvFiles ["a.CSV", "a.csv"]).length = 2 ∧
    ((mainRun ["a.CSV", "a.csv"] env9).2).length = 1 ∧
    lookupA (mainRun ["a.CSV", "a.csv"] env9).2 "a" =
      some ⟨"a.csv", "imported", some 7, none⟩ := by
  refine ⟨rfl, rfl, ?_⟩
  rfl

/-- C9 amended: for every run, every `.csv` file is attempted regardless of
    other files' failures and the log is re-persisted after each one (one
    snapshot per file, the i-th being the log of the first i+1 files); the
    final report is the full fold, its entry under a stem records the
    outcome of the LAST processed file with that stem, and it has exactly
    one entry per DISTINCT stem — not per file. -/
theorem C9_orchestrator_amended (allFiles : List String) (env : String → FileResult)
    (i : Nat) (hi : i < (csvFiles allFiles).length) (s : String) :
    (mainRun allFiles env).1.length = (csvFiles allFiles).length ∧
    (mainRun allFiles env).1[i]? =
      some (logOf env ((csvFiles allFiles).take (i + 1))) ∧
    (mainRun allFiles env).2 = logOf env (csvFiles allFiles) ∧
    lookupA (mainRun allFiles env).2 s =
      (match (csvFiles allFiles).reverse.find? (fun f => splitextRoot f = s) with
       | some f => some (processFile env f)
       | none => none) ∧
    (mainRun allFiles env).2.length =
      ((csvFiles allFiles).map splitextRoot).toFinset.card := by
  have hfst : (mainRun allFiles env).1 =
      (List.range (csvFiles allFiles).length).map
        (fun k => logFrom env [] ((csvFiles allFiles).take (k + 1))) := by
    rw [show (mainRun allFiles env).1 = (mainGo env (csvFiles allFiles) [] []).1 from rfl]
    rw [mainGo_fst]
    rfl
  have hsnd : (mainRun allFiles env).2 = logOf env (csvFiles allFiles) := by
    rw [show (mainRun allFiles env).2 = (mainGo env (csvFiles allFiles) [] []).2 from rfl]
    rw [mainGo_snd]
    rfl
  refine ⟨?_, ?_, hsnd, ?_, ?_⟩
  · rw [hfst]
    simp
  · rw [hfst]
    rw [List.getElem?_map, List.getElem?_range hi]
    rfl
  · rw [hsnd]
    rw [show logOf env (csvFiles allFiles) = logFrom env [] (csvFiles allFiles) from rfl]
    rw [lookupA_logFrom]
    rcases (csvFiles allFiles).reverse.find? (fun f => splitextRoot f = s) with _ | f
    · rfl
    · rfl
  · rw [hsnd]
    exact logOf_length env (csvFiles allFiles)

/-- C9 witness: the amended orchestrator facts at the concrete listing
    ["b.csv", "a.CSV", "a.csv", "notes.txt"] with env9, snapshot 0, stem "a". -/
theorem C9_orchestrator_witness :
    0 < (csvFiles ["b.csv", "a.CSV", "a.csv", "notes.txt"]).length ∧
    ((mainRun ["b.csv", "a.CSV", "a.csv", "notes.txt"] env9).1.length =
        (csvFiles ["b.csv", "a.CSV", "a.csv", "notes.txt"]).length ∧
      (mainRun ["b.csv", "a.CSV", "a.csv", "notes.txt"] env9).1[0]? =
        some (logOf env9 ((csvFiles ["b.csv", "a.CSV", "a.csv", "notes.txt"]).take (0 + 1))) ∧
      (mainRun ["b.csv", "a.CSV", "a.csv", "notes.txt"] env9).2 =
        logOf env9 (csvFiles ["b.csv", "a.CSV", "a.csv", "notes.txt"]) ∧
      lookupA (mainRun ["b.csv", "a.CSV", "a.csv", "notes.txt"] env9).2 "a" =
        (match (csvFiles ["b.csv", "a.CSV", "a.csv", "notes.txt"]).reverse.find?
            (fun f => splitextRoot f = "a") with
         | some f => some (processFile env9 f)
         | none => none) ∧
      (mainRun ["b.csv", "a.CSV", "a.csv", "notes.txt"] env9).2.length =
        ((csvFiles ["b.csv", "a.CSV", "a.csv", "notes.txt"]).map splitextRoot).toFinset.card) :=
  ⟨by decide, C9_orchestrator_amended ["b.csv", "a.CSV", "a.csv", "notes.txt"] env9 0
    (by decide) "a"⟩
